import Mathlib

/-!
# gh_hack_PoC, `poc_2/app.js`: the tunnel's codec, normaliser, channel, session and lifecycle

A shallow embedding of the parts of `app.js` that the specification speaks
about, followed by the theorems that settle its claims.

Conventions of the embedding.

* A `Uint8Array` is a `List Nat` whose elements are byte values (0..255).
* A JavaScript string is a Lean `String` (a sequence of Unicode scalar
  values); lone surrogates are not represented.
* A JavaScript object used as a mapping is an association list in property
  order whose keys are pairwise distinct (`keysDistinct`); the reordering of
  integer-like keys is not modelled, and mappings are compared as such lists.
* A thrown value is the text that a template literal would print for it.
* Platform functions (`JSON.stringify`, `JSON.parse`, `TextEncoder`,
  `TextDecoder`, `String.prototype.split`, `trim`, `toLowerCase`) are modelled
  from their standards, next to the code that calls them.
-/

namespace Tunnel

/-! ## Platform: JSON values, `JSON.stringify`, `JSON.parse` -/

/-- Values that `JSON.parse` returns and `JSON.stringify` prints. Numbers are
restricted to integers, the only numbers the payloads carry (`code`). -/
inductive Json where
  | null
  | bool (b : Bool)
  | num (n : Int)
  | str (s : String)
  | arr (xs : List Json)
  | obj (kvs : List (String × Json))

/-- Byte values of a `Uint8Array`. -/
abbrev Bytes := List Nat

/-- Assignment `o[k] = v` on an own data property: an existing key keeps its
place and takes the new value, a new key is appended. -/
def objSet {α : Type} : List (String × α) → String → α → List (String × α)
  | [], k, v => [(k, v)]
  | (k0, v0) :: rest, k, v =>
    if k0 = k then (k0, v) :: rest else (k0, v0) :: objSet rest k v

/-- Property read `o[k]`, `none` standing for `undefined`. -/
def objGet {α : Type} : List (String × α) → String → Option α
  | [], _ => none
  | (k0, v0) :: rest, k => if k0 = k then some v0 else objGet rest k

/-- Statement `delete o[k]`. -/
def objDelete {α : Type} : List (String × α) → String → List (String × α)
  | [], _ => []
  | (k0, v0) :: rest, k =>
    if k0 = k then objDelete rest k else (k0, v0) :: objDelete rest k

/-- The keys of an object are pairwise distinct, as in every JavaScript object. -/
def keysDistinct {α : Type} (o : List (String × α)) : Prop :=
  (o.map Prod.fst).Nodup

instance {α : Type} (o : List (String × α)) : Decidable (keysDistinct o) := by
  unfold keysDistinct
  infer_instance

/-- Lowercase hexadecimal digit of a value below 16. -/
def hexDigit (n : Nat) : Char :=
  if n < 10 then Char.ofNat (48 + n) else Char.ofNat (87 + n)

/-- One character of a string as `JSON.stringify` quotes it (QuoteJSONString):
short escapes for backspace, tab, line feed, form feed, carriage return, the
quote and the backslash, a four-digit escape for the other controls, and the
character itself otherwise. -/
def quoteChar (c : Char) : List Char :=
  if c = '"' then ['\\', '"']
  else if c = '\\' then ['\\', '\\']
  else if c.toNat = 8 then ['\\', 'b']
  else if c.toNat = 9 then ['\\', 't']
  else if c.toNat = 10 then ['\\', 'n']
  else if c.toNat = 12 then ['\\', 'f']
  else if c.toNat = 13 then ['\\', 'r']
  else if c.toNat < 32 then
    ['\\', 'u', '0', '0', hexDigit (c.toNat / 16), hexDigit (c.toNat % 16)]
  else [c]

/-- Characters between the quotes of a quoted string. -/
def quoteChars : List Char → List Char
  | [] => []
  | c :: cs => quoteChar c ++ quoteChars cs

/-- A string as `JSON.stringify` prints it. -/
def quoteString (s : String) : List Char :=
  '"' :: (quoteChars s.data ++ ['"'])

/-- Decimal digits of a natural number, most significant first; the first
argument bounds the number of digits. -/
def natDigits : Nat → Nat → List Char
  | 0, _ => []
  | fuel + 1, n =>
    if n < 10 then [Char.ofNat (48 + n)]
    else natDigits fuel (n / 10) ++ [Char.ofNat (48 + n % 10)]

/-- An integer as `JSON.stringify` (Number::toString) prints it. -/
def intToChars (n : Int) : List Char :=
  if n < 0 then '-' :: natDigits (n.natAbs + 1) n.natAbs
  else natDigits (n.natAbs + 1) n.natAbs

mutual
/-- The text of `JSON.stringify(v)`, without indentation. -/
def stringify : Json → List Char
  | .null => ['n', 'u', 'l', 'l']
  | .bool true => ['t', 'r', 'u', 'e']
  | .bool false => ['f', 'a', 'l', 's', 'e']
  | .num n => intToChars n
  | .str s => quoteString s
  | .arr xs => '[' :: (stringifyElements xs ++ [']'])
  | .obj kvs => '{' :: (stringifyMembers kvs ++ ['}'])
/-- Comma-separated elements of an array. -/
def stringifyElements : List Json → List Char
  | [] => []
  | [x] => stringify x
  | x :: y :: rest => stringify x ++ ',' :: stringifyElements (y :: rest)
/-- Comma-separated `"key":value` members of an object. -/
def stringifyMembers : List (String × Json) → List Char
  | [] => []
  | [(k, x)] => quoteString k ++ ':' :: stringify x
  | (k, x) :: y :: rest =>
    quoteString k ++ ':' :: (stringify x ++ ',' :: stringifyMembers (y :: rest))
end

/-- JSON white space: space, tab, line feed, carriage return. -/
def isWs (c : Char) : Bool :=
  c = ' ' || c.toNat = 9 || c.toNat = 10 || c.toNat = 13

/-- Drop leading white space. -/
def skipWs : List Char → List Char
  | [] => []
  | c :: cs => if isWs c then skipWs cs else c :: cs

/-- Value of a hexadecimal digit, either case. -/
def hexVal (c : Char) : Option Nat :=
  let n := c.toNat
  if 48 ≤ n ∧ n ≤ 57 then some (n - 48)
  else if 97 ≤ n ∧ n ≤ 102 then some (n - 87)
  else if 65 ≤ n ∧ n ≤ 70 then some (n - 55)
  else none

/-- Value of four hexadecimal digits. -/
def hex4 (a b c d : Char) : Option Nat :=
  match hexVal a, hexVal b, hexVal c, hexVal d with
  | some w, some x, some y, some z => some (((w * 16 + x) * 16 + y) * 16 + z)
  | _, _, _, _ => none

/-- The character a short escape stands for. -/
def unescape (e : Char) : Option Char :=
  if e = '"' then some '"'
  else if e = '\\' then some '\\'
  else if e = '/' then some '/'
  else if e = 'b' then some (Char.ofNat 8)
  else if e = 'f' then some (Char.ofNat 12)
  else if e = 'n' then some (Char.ofNat 10)
  else if e = 'r' then some (Char.ofNat 13)
  else if e = 't' then some (Char.ofNat 9)
  else none

/-- Put a character in front of a parsed string. -/
def consChar (c : Char) (r : Option (List Char × List Char)) :
    Option (List Char × List Char) :=
  r.map fun p => (c :: p.1, p.2)

/-- The character written by the escape that follows a backslash, and the
input after the escape. An unknown escape and a lone surrogate escape are
rejected; a surrogate pair written as two escapes is one character. -/
def readEscape : List Char → Option (Char × List Char)
  | [] => none
  | e :: r =>
    if e = 'u' then
      match r with
      | a :: b :: c :: d :: r3 =>
        match hex4 a b c d with
        | none => none
        | some n =>
          if n < 0xD800 ∨ 0xE000 ≤ n then some (Char.ofNat n, r3)
          else if 0xDC00 ≤ n then none
          else
            match r3 with
            | b1 :: u1 :: a2 :: b2 :: c2 :: d2 :: r4 =>
              if b1 = '\\' ∧ u1 = 'u' then
                match hex4 a2 b2 c2 d2 with
                | none => none
                | some m =>
                  if 0xDC00 ≤ m ∧ m < 0xE000 then
                    some (Char.ofNat (0x10000 + (n - 0xD800) * 1024 + (m - 0xDC00)), r4)
                  else none
              else none
            | _ => none
      | _ => none
    else (unescape e).map fun ch => (ch, r)

/-- The rest of a JSON string after its opening quote: the characters up to the
closing quote and the input after it. A raw control character is rejected. The
first argument bounds the number of characters read. -/
def parseStringBody : Nat → List Char → Option (List Char × List Char)
  | 0, _ => none
  | _ + 1, [] => none
  | fuel + 1, c :: r =>
    if c = '"' then some ([], r)
    else if c = '\\' then
      match readEscape r with
      | none => none
      | some (ch, r2) => consChar ch (parseStringBody fuel r2)
    else if c.toNat < 32 then none
    else consChar c (parseStringBody fuel r)

/-- A JSON string after its opening quote, read to its closing quote. -/
def parseString (cs : List Char) : Option (List Char × List Char) :=
  parseStringBody cs.length cs

/-- Read the digits at the front of the input into an accumulator. -/
def parseDigits : List Char → Nat → Nat × List Char
  | [], acc => (acc, [])
  | c :: cs, acc =>
    if 48 ≤ c.toNat ∧ c.toNat ≤ 57 then parseDigits cs (acc * 10 + (c.toNat - 48))
    else (acc, c :: cs)

/-- An unsigned integer literal: `0`, or a non-zero digit followed by digits.
A fraction or an exponent is outside the integer model and is rejected. -/
def parseUnsigned : List Char → Option (Nat × List Char)
  | [] => none
  | c :: cs =>
    if c = '0' then
      match cs with
      | d :: _ => if d = '.' ∨ d = 'e' ∨ d = 'E' then none else some (0, cs)
      | [] => some (0, cs)
    else if 49 ≤ c.toNat ∧ c.toNat ≤ 57 then
      match parseDigits cs (c.toNat - 48) with
      | (n, d :: rest) => if d = '.' ∨ d = 'e' ∨ d = 'E' then none else some (n, d :: rest)
      | (n, []) => some (n, [])
    else none

/-- An integer literal with its optional minus sign. -/
def parseNumber : List Char → Option (Int × List Char)
  | [] => none
  | c :: cs =>
    if c = '-' then (parseUnsigned cs).map fun p => (-(p.1 : Int), p.2)
    else (parseUnsigned (c :: cs)).map fun p => ((p.1 : Int), p.2)

mutual
/-- One JSON value at the front of the input (leading white space skipped) and
the input after it. The first argument bounds the nesting and the number of
members visited. -/
def parseValue : Nat → List Char → Option (Json × List Char)
  | 0, _ => none
  | fuel + 1, cs =>
    match skipWs cs with
    | [] => none
    | c :: r =>
      if c = '"' then
        (parseString r).map fun p => (Json.str (String.mk p.1), p.2)
      else if c = '{' then
        match skipWs r with
        | [] => none
        | c2 :: r2 =>
          if c2 = '}' then some (Json.obj [], r2) else parseMembers fuel (c2 :: r2) []
      else if c = '[' then
        match skipWs r with
        | [] => none
        | c2 :: r2 =>
          if c2 = ']' then some (Json.arr [], r2) else parseElements fuel (c2 :: r2) []
      else if c = 't' then
        match r with
        | 'r' :: 'u' :: 'e' :: r2 => some (Json.bool true, r2)
        | _ => none
      else if c = 'f' then
        match r with
        | 'a' :: 'l' :: 's' :: 'e' :: r2 => some (Json.bool false, r2)
        | _ => none
      else if c = 'n' then
        match r with
        | 'u' :: 'l' :: 'l' :: r2 => some (Json.null, r2)
        | _ => none
      else (parseNumber (c :: r)).map fun p => (Json.num p.1, p.2)
/-- The members of an object from the first key on; a repeated key overrides
the earlier value. -/
def parseMembers : Nat → List Char → List (String × Json) → Option (Json × List Char)
  | 0, _, _ => none
  | fuel + 1, cs, acc =>
    match skipWs cs with
    | [] => none
    | q :: r =>
      if q = '"' then
        match parseString r with
        | none => none
        | some (k, r2) =>
          match skipWs r2 with
          | [] => none
          | colon :: r3 =>
            if colon = ':' then
              match parseValue fuel r3 with
              | none => none
              | some (v, r4) =>
                match skipWs r4 with
                | [] => none
                | sep :: r5 =>
                  if sep = ',' then parseMembers fuel r5 (objSet acc (String.mk k) v)
                  else if sep = '}' then some (Json.obj (objSet acc (String.mk k) v), r5)
                  else none
            else none
      else none
/-- The elements of an array from the first one on. -/
def parseElements : Nat → List Char → List Json → Option (Json × List Char)
  | 0, _, _ => none
  | fuel + 1, cs, acc =>
    match parseValue fuel cs with
    | none => none
    | some (v, r) =>
      match skipWs r with
      | [] => none
      | sep :: r2 =>
        if sep = ',' then parseElements fuel r2 (acc ++ [v])
        else if sep = ']' then some (Json.arr (acc ++ [v]), r2)
        else none
end

/-- Result of `JSON.parse(text)`, `none` when it throws a SyntaxError: one
value, with nothing but white space after it. -/
def jsonParse (text : List Char) : Option Json :=
  match parseValue (2 * text.length + 2) text with
  | none => none
  | some (v, rest) => if skipWs rest = [] then some v else none

/-! ## Platform: `TextEncoder` and `String.fromCharCode` -/

/-- UTF-8 bytes of one character. -/
def utf8EncodeChar (c : Char) : Bytes :=
  let n := c.toNat
  if n < 0x80 then [n]
  else if n < 0x800 then [0xC0 + n / 64, 0x80 + n % 64]
  else if n < 0x10000 then [0xE0 + n / 4096, 0x80 + n / 64 % 64, 0x80 + n % 64]
  else [0xF0 + n / 262144, 0x80 + n / 4096 % 64, 0x80 + n / 64 % 64, 0x80 + n % 64]

/-- Bytes of `(new TextEncoder()).encode(text)`. -/
def textEncode : List Char → Bytes
  | [] => []
  | c :: cs => utf8EncodeChar c ++ textEncode cs

/-! ## Framing codec (`processReqPayload`, `buildResPayload`) -/

/-- Text of the error thrown when the payload has no terminator. -/
def noTerminator : String := "invalid request (no terminator)"

/-- Text of the error thrown when the text before the terminator is not JSON. -/
def invalidJson : String := "invalid request (invalid JSON)"

/-- The `while (true)` loop of `processReqPayload`, run on the bytes from index
`i` on, with the characters appended to `reqDetails` so far: the text read up
to the first zero byte, and the bytes after that byte (`subarray(i+1)`). -/
def scanDetails : Bytes → List Char → Except String (List Char × Bytes)
  | [], _ => .error noTerminator
  | byte :: rest, reqDetails =>
    if byte = 0 then .ok (reqDetails, rest)
    else scanDetails rest (reqDetails ++ [Char.ofNat byte])

/-- Function `processReqPayload`: the details object and the body, `none`
standing for `undefined`. -/
def processReqPayload (reqPayload : Bytes) : Except String (Json × Option Bytes) :=
  match scanDetails reqPayload [] with
  | .error e => .error e
  | .ok (text, body) =>
    match jsonParse text with
    | none => .error invalidJson
    | some reqDetails => .ok (reqDetails, if body.length = 0 then none else some body)

/-- Function `buildResPayload`: the JSON text of the details object, the zero
terminator, and the body when there is one. -/
def buildResPayload (resDetails : Json) (body : Option Bytes) : Bytes :=
  let resDetailsBytes := textEncode (stringify resDetails)
  match body with
  | some b => resDetailsBytes ++ 0 :: b
  | none => resDetailsBytes ++ [0]

/-- A header or cookie mapping: names to string values. -/
abbrev Headers := List (String × String)

/-- The two details objects of the payload format comment: a request
`{method, url, headers}` and a response `{code, headers, cookies}`. -/
inductive Details where
  | request (method url : String) (headers : Headers)
  | response (code : Int) (headers cookies : Headers)

/-- A mapping of strings as a JSON object. -/
def headersJson (h : Headers) : Json :=
  .obj (h.map fun kv => (kv.1, Json.str kv.2))

/-- The JavaScript object of a details value. -/
def Details.toJson : Details → Json
  | .request method url headers =>
    .obj [("method", .str method), ("url", .str url), ("headers", headersJson headers)]
  | .response code headers cookies =>
    .obj [("code", .num code), ("headers", headersJson headers),
      ("cookies", headersJson cookies)]

/-- Every character of the string is in the ASCII range. -/
def asciiString (s : String) : Prop := ∀ c ∈ s.data, c.toNat < 128

instance (s : String) : Decidable (asciiString s) := by
  unfold asciiString
  infer_instance

/-- Every name and value of the mapping is ASCII. -/
def asciiHeaders (h : Headers) : Prop :=
  ∀ kv ∈ h, asciiString kv.1 ∧ asciiString kv.2

instance (h : Headers) : Decidable (asciiHeaders h) := by
  unfold asciiHeaders
  infer_instance

/-- Every string of the details object is ASCII, the `[ascii json object]` of
the payload format comment. -/
def Details.ascii : Details → Prop
  | .request method url headers =>
    asciiString method ∧ asciiString url ∧ asciiHeaders headers
  | .response _ headers cookies => asciiHeaders headers ∧ asciiHeaders cookies

instance (d : Details) : Decidable d.ascii := by
  cases d <;> unfold Details.ascii <;> infer_instance

/-- The mappings of the details object have pairwise distinct keys. -/
def Details.wellFormed : Details → Prop
  | .request _ _ headers => keysDistinct headers
  | .response _ headers cookies => keysDistinct headers ∧ keysDistinct cookies

instance (d : Details) : Decidable d.wellFormed := by
  cases d <;> unfold Details.wellFormed <;> infer_instance

/-- Text whose characters are ASCII and not the NUL character: its UTF-8 bytes
are its character codes, none of them zero. -/
def CleanText (cs : List Char) : Prop := ∀ c ∈ cs, 0 < c.toNat ∧ c.toNat < 128

/-- The value is read back from its text when a comma or a closing brace
follows, with `n` units of fuel. -/
def ReadsBack (n : Nat) (v : Json) : Prop :=
  ∀ (fuel : Nat) (sep : Char) (rest : List Char), n ≤ fuel → sep = ',' ∨ sep = '}' →
    parseValue fuel (stringify v ++ sep :: rest) = some (v, sep :: rest)

/-! ## Platform: `toLowerCase`, `TextDecoder('ascii', {fatal: true})`, `split`, `trim` -/

/-- ASCII instance of `String.prototype.toLowerCase`: the letters `A` to `Z`
are mapped to `a` to `z`. The functions below take the case mapping as a
parameter; this is the one used to evaluate them. -/
def asciiLowerCase (s : String) : String :=
  String.mk (s.data.map fun c => if 65 ≤ c.toNat ∧ c.toNat ≤ 90 then Char.ofNat (c.toNat + 32) else c)

/-- The index of the windows-1252 encoding (Encoding Standard), for the bytes
0x80 to 0x9F; the bytes from 0xA0 on map to the code point of the same value.
No entry of this index is missing. -/
def indexWindows1252 : List Nat :=
  [0x20AC, 0x0081, 0x201A, 0x0192, 0x201E, 0x2026, 0x2020, 0x2021,
   0x02C6, 0x2030, 0x0160, 0x2039, 0x0152, 0x008D, 0x017D, 0x008F,
   0x0090, 0x2018, 0x2019, 0x201C, 0x201D, 0x2022, 0x2013, 0x2014,
   0x02DC, 0x2122, 0x0161, 0x203A, 0x0153, 0x009D, 0x017E, 0x0178]

/-- One byte under the single-byte decoder of the Encoding Standard, for
windows-1252: an ASCII byte is its own code point, another byte is looked up
in the index, and a missing index entry is an error (`none`). -/
def decodeByte (byte : Nat) : Option Char :=
  if byte < 0x80 then some (Char.ofNat byte)
  else if byte < 0xA0 then (indexWindows1252.get? (byte - 0x80)).map Char.ofNat
  else if byte < 0x100 then some (Char.ofNat byte)
  else none

/-- Result of `(new TextDecoder('ascii', {fatal: true})).decode(body)`, `none`
when it throws. In the Encoding Standard the label `ascii` names the
windows-1252 encoding, so this is the fatal windows-1252 decoder. -/
def textDecodeAscii : Bytes → Option (List Char)
  | [] => some []
  | byte :: rest =>
    match decodeByte byte, textDecodeAscii rest with
    | some c, some cs => some (c :: cs)
    | _, _ => none

/-- Pieces of a string between occurrences of a one-character separator,
as `String.prototype.split` returns them: the piece being read and the rest. -/
def splitAux (sep : Char) : List Char → List Char → List (List Char)
  | [], piece => [piece]
  | c :: cs, piece =>
    if c = sep then piece :: splitAux sep cs [] else splitAux sep cs (piece ++ [c])

/-- Result of `s.split(sep)` for a one-character separator. -/
def split (sep : Char) (s : List Char) : List (List Char) :=
  splitAux sep s []

/-- White space and line terminators, the characters `trim` removes. -/
def isTrimmed (c : Char) : Bool :=
  let n := c.toNat
  n = 0x09 || n = 0x0A || n = 0x0B || n = 0x0C || n = 0x0D || n = 0x20 || n = 0xA0 ||
  n = 0x1680 || (0x2000 ≤ n && n ≤ 0x200A) || n = 0x2028 || n = 0x2029 || n = 0x202F ||
  n = 0x205F || n = 0x3000 || n = 0xFEFF

/-- Result of `s.trim()`. -/
def trim (s : List Char) : List Char :=
  ((s.dropWhile isTrimmed).reverse.dropWhile isTrimmed).reverse

/-! ## Request executor (`sendHttpReq`): the pure steps -/

/-- Array `defaultHeaders`. -/
def defaultHeaders : List String := ["referer"]

/-- Array `stripReqHeaders`. -/
def stripReqHeaders : List String :=
  ["content-length", "content-encoding", "accept-encoding", "host"]

/-- Array `stripResHeaders`. -/
def stripResHeaders : List String := ["content-length", "content-encoding", "status"]

/-- Truth value of `o[k]` for a mapping of strings: a missing key reads as
`undefined` and an empty string is falsy. -/
def truthy (v : Option String) : Bool :=
  match v with
  | none => false
  | some s => s ≠ ""

/-- Assignment `o[k] = v` of a string on an object created by `{}`: the key
`__proto__` reaches the setter inherited from `Object.prototype`, which
ignores a string, so no property is created; any other key is set. -/
def assign (o : Headers) (k v : String) : Headers :=
  if k = "__proto__" then o else objSet o k v

/-- The loop `for (let header in reqDetails.headers)` over the remaining
headers, with the object `reqHeaders` built so far. -/
def lowerKeys (toLowerCase : String → String) : Headers → Headers → Headers
  | [], reqHeaders => reqHeaders
  | (header, value) :: rest, reqHeaders =>
    lowerKeys toLowerCase rest (assign reqHeaders (toLowerCase header) value)

/-- The loop `for (let header of defaultHeaders)`. -/
def addDefaults : List String → Headers → Headers
  | [], reqHeaders => reqHeaders
  | header :: rest, reqHeaders =>
    addDefaults rest
      (if truthy (objGet reqHeaders header) then reqHeaders else assign reqHeaders header "")

/-- The loops `for (let header of stripReqHeaders)` and
`for (let header of stripResHeaders)`. -/
def stripHeaders : List String → Headers → Headers
  | [], headers => headers
  | header :: rest, headers =>
    stripHeaders rest
      (if truthy (objGet headers header) then objDelete headers header else headers)

/-- The object `reqHeaders` of `sendHttpReq` after its three loops (lines
178 to 193): keys in lower case, defaults added, hop headers stripped. Its
entries, in order, are the `reqHeadersParam` sent with `Fetch.continueRequest`. -/
def reqHeaders (toLowerCase : String → String) (headers : Headers) : Headers :=
  stripHeaders stripReqHeaders
    (addDefaults defaultHeaders (lowerKeys toLowerCase headers []))

/-- The object `reqParams` sent with `Fetch.continueRequest`. -/
structure ReqParams where
  requestId : String
  method : String
  url : String
  headers : Headers
  postData : Option String
  deriving DecidableEq

/-- Text thrown when the body does not decode. -/
def bodyMustBeText : String := "request body must be text, see comment at top of app.js"

/-- Lines 178 to 219 of `sendHttpReq`: the parameters of
`Fetch.continueRequest` for the intercepted request `requestId`, or the thrown
text. A body that is present (`if (body)`, true of every `Uint8Array`) is
decoded and its text becomes `postData`. -/
def reqParams (toLowerCase : String → String) (requestId method url : String)
    (headers : Headers) (body : Option Bytes) : Except String ReqParams :=
  let reqHeadersParam := reqHeaders toLowerCase headers
  match body with
  | none =>
    .ok { requestId := requestId, method := method, url := url,
          headers := reqHeadersParam, postData := none }
  | some bytes =>
    match textDecodeAscii bytes with
    | none => .error bodyMustBeText
    | some text =>
      .ok { requestId := requestId, method := method, url := url,
            headers := reqHeadersParam, postData := some (String.mk text) }

/-- The loop over `res.responseHeaders`, an array of `{name, value}`, with the
object `resHeaders` built so far. -/
def resHeaderKeys (toLowerCase : String → String) : Headers → Headers → Headers
  | [], resHeaders => resHeaders
  | (name, value) :: rest, resHeaders =>
    resHeaderKeys toLowerCase rest (assign resHeaders (toLowerCase name) value)

/-- The object `resHeaders` of `sendHttpReq` (lines 263 to 271). -/
def resHeaders (toLowerCase : String → String) (responseHeaders : Headers) : Headers :=
  stripHeaders stripResHeaders (resHeaderKeys toLowerCase responseHeaders [])

/-- Text of the TypeError raised by `cookieVal.trim()` when a segment has no
`=` and `cookieVal` is `undefined`. -/
def trimOfUndefined : String := "TypeError: Cannot read property 'trim' of undefined"

/-- The loop `for (let cookie of cookieHeader.split(';'))` over the remaining
segments, with the object `resCookies` built so far: each segment is split at
every `=`, its first two pieces are trimmed and stored as name and value. -/
def cookieLoop : List (List Char) → Headers → Except String Headers
  | [], resCookies => .ok resCookies
  | cookie :: rest, resCookies =>
    match split '=' cookie with
    | cookieName :: cookieVal :: _ =>
      cookieLoop rest (assign resCookies (String.mk (trim cookieName)) (String.mk (trim cookieVal)))
    | _ => .error trimOfUndefined

/-- The object `resCookies` of `sendHttpReq` (lines 278 to 286), read from the
headers of the echoed request. -/
def resCookies (requestHeaders : Headers) : Except String Headers :=
  match objGet requestHeaders "Cookie" with
  | none => .ok []
  | some cookieHeader =>
    if cookieHeader = "" then .ok [] else cookieLoop (split ';' cookieHeader.data) []

/-- The keys of the object are distinct, fixed by the case mapping, and none is
`__proto__`: what holds of every object built by the loops of `reqHeaders`. -/
def Normal (toLowerCase : String → String) (o : Headers) : Prop :=
  keysDistinct o ∧ ∀ k ∈ o.map Prod.fst, toLowerCase k = k ∧ k ≠ "__proto__"


/-! ## Command/event channel (`sendCmdCDP`, `waitForEventCDP`) -/

/-- Constant `CDP_TIMEOUT_MS`. -/
def CDP_TIMEOUT_MS : Nat := 4000

/-- Constant `WS_RECONNECT_MS`. -/
def WS_RECONNECT_MS : Nat := 5000

/-- Constant `HTTP_RES_TIMEOUT`. -/
def HTTP_RES_TIMEOUT : Nat := 2000

/-- The object `cmd` that `sendCmdCDP` serialises and sends. -/
structure Cmd where
  id : Nat
  method : String
  params : Json
  sessionId : Option String

/-- The `result` object of a reply: its optional `errorText`, a string, and its
other fields. -/
structure CdpResult where
  errorText : Option String
  fields : List (String × Json)

/-- An inbound message of the debugging protocol after `JSON.parse`: a reply
`{id, result}`, a reply `{id, error: {code, message}}`, or an event
`{method, params}`. -/
inductive Msg where
  | result (id : Nat) (result : CdpResult)
  | error (id : Nat) (code : Int) (message : String)
  | event (method : String) (params : Json)

/-- Field `msg.id`, `none` standing for `undefined`. -/
def Msg.id? : Msg → Option Nat
  | .result id _ => some id
  | .error id _ _ => some id
  | .event _ _ => none

/-- What a promise of the channel resolves with. -/
inductive Value where
  | undefined
  | result (r : CdpResult)
  | params (p : Json)

/-- How a promise of the channel settles. -/
inductive Outcome where
  | resolved (value : Value)
  | rejected (reason : String)

/-- The function stored in `ws.onmessage`: `logUnhandledEvent`, the closure
installed by `sendCmdCDP` (over `cmd.id`, `method` and its timer), or the
closure installed by `waitForEventCDP` (over `method` and its timer). -/
inductive Handler where
  | logUnhandledEvent
  | awaitReply (id : Nat) (method : String) (timeout : Nat)
  | awaitEvent (method : String) (timeout : Nat)
  deriving DecidableEq

/-- A pending `setTimeout` of the channel: its handle, its delay and the text
its callback rejects with. -/
structure Timer where
  handle : Nat
  ms : Nat
  reason : String
  deriving DecidableEq

/-- The debugging socket `ws` with the state the channel functions share: the
ready state, the `onmessage` slot, the frames sent, the global `cmdId` and the
pending timers. The counter is an unbounded natural number: a JavaScript
number counts exactly up to 2^53, one step per frame sent. -/
structure Chan where
  isOpen : Bool
  onmessage : Handler
  sent : List Cmd
  cmdId : Nat
  timers : List Timer
  nextTimer : Nat

/-- A promise of the channel when the function that made it returns: already
settled, or pending and named by the handle of its timer. -/
inductive CallState where
  | settled (o : Outcome)
  | pending (timeout : Nat)

/-- Text `sendCmdCDP` rejects with on a socket that is not open. -/
def closedText : String := "CDP websocket is closed"

/-- Function `sendCmdCDP`. On a socket that is not open it rejects, sending
nothing; otherwise it sends the command with the current `cmdId`, increments
`cmdId`, and either resolves at once (`ignoreRes`) or starts its timer and
installs its reply handler. -/
def sendCmdCDP (ws : Chan) (method : String) (params : Json) (ignoreRes : Bool)
    (sessionId : Option String) : Chan × CallState :=
  let cmd : Cmd :=
    { id := ws.cmdId, method := method, params := params,
      sessionId := if truthy sessionId then sessionId else none }
  if ws.isOpen = false then (ws, .settled (.rejected closedText))
  else
    let ws1 := { ws with sent := ws.sent ++ [cmd], cmdId := ws.cmdId + 1 }
    if ignoreRes then (ws1, .settled (.resolved .undefined))
    else
      let timeout := ws1.nextTimer
      ({ ws1 with
          timers := ws1.timers ++
            [{ handle := timeout, ms := CDP_TIMEOUT_MS, reason := method ++ " error: timed out" }],
          nextTimer := timeout + 1,
          onmessage := .awaitReply cmd.id method timeout },
        .pending timeout)

/-- Function `waitForEventCDP`: starts its timer and installs its event handler. -/
def waitForEventCDP (ws : Chan) (method : String) (timeout_ms : Nat) : Chan × CallState :=
  let timeout := ws.nextTimer
  ({ ws with
      timers := ws.timers ++
        [{ handle := timeout, ms := timeout_ms, reason := method ++ " error: request timed out" }],
      nextTimer := timeout + 1,
      onmessage := .awaitEvent method timeout },
    .pending timeout)

/-- Call `clearTimeout(timeout)`. -/
def clearTimeout (timers : List Timer) (timeout : Nat) : List Timer :=
  timers.filter fun t => t.handle ≠ timeout

/-- The two statements `clearTimeout(timeout); ws.onmessage = logUnhandledEvent;`. -/
def resetHandler (ws : Chan) (timeout : Nat) : Chan :=
  { ws with timers := clearTimeout ws.timers timeout, onmessage := .logUnhandledEvent }

/-- An integer as a template literal prints it. -/
def intText (n : Int) : String := String.mk (intToChars n)

/-- One inbound message handed to `ws.onmessage`: the channel afterwards and,
when the handler settles its promise, the promise (named by its timer) and the
outcome. A message the handler does not match goes to `logUnhandledEvent`. -/
def deliver (ws : Chan) (msg : Msg) : Chan × Option (Nat × Outcome) :=
  match ws.onmessage with
  | .logUnhandledEvent => (ws, none)
  | .awaitReply id method timeout =>
    if msg.id? = some id then
      match msg with
      | .error _ code message =>
        (resetHandler ws timeout,
          some (timeout, .rejected (method ++ " error: " ++ intText code ++ ": " ++ message)))
      | .result _ result =>
        if truthy result.errorText then
          (resetHandler ws timeout,
            some (timeout, .rejected (method ++ " error: " ++ result.errorText.getD "")))
        else (resetHandler ws timeout, some (timeout, .resolved (.result result)))
      | .event _ _ => (ws, none)
    else (ws, none)
  | .awaitEvent method timeout =>
    match msg with
    | .event m params =>
      if m = method then (resetHandler ws timeout, some (timeout, .resolved (.params params)))
      else (ws, none)
    | _ => (ws, none)

/-- A timer of the channel fires: its callback sets `ws.onmessage` to
`logUnhandledEvent` and rejects its promise. A handle that is not pending
does nothing. -/
def fireTimer (ws : Chan) (timeout : Nat) : Chan × Option (Nat × Outcome) :=
  match ws.timers.find? fun t => t.handle = timeout with
  | none => (ws, none)
  | some t =>
    ({ ws with timers := clearTimeout ws.timers timeout, onmessage := .logUnhandledEvent },
      some (timeout, .rejected t.reason))

/-- Inbound messages handed to the channel one after the other, with the
settlements they cause, in order. -/
def deliverAll : Chan → List Msg → Chan × List (Nat × Outcome)
  | ws, [] => (ws, [])
  | ws, msg :: rest =>
    let r := deliver ws msg
    let rs := deliverAll r.1 rest
    (rs.1, r.2.toList ++ rs.2)

/-- What can happen to the channel: a call of `sendCmdCDP`, a call of
`waitForEventCDP`, an inbound message, a timer firing, a change of the
socket's ready state. -/
inductive Action where
  | call (method : String) (params : Json) (ignoreRes : Bool) (sessionId : Option String)
  | wait (method : String) (timeout_ms : Nat)
  | message (msg : Msg)
  | timer (timeout : Nat)
  | readyState (isOpen : Bool)

/-- The channel after one action. -/
def step (ws : Chan) : Action → Chan
  | .call method params ignoreRes sessionId => (sendCmdCDP ws method params ignoreRes sessionId).1
  | .wait method timeout_ms => (waitForEventCDP ws method timeout_ms).1
  | .message msg => (deliver ws msg).1
  | .timer timeout => (fireTimer ws timeout).1
  | .readyState isOpen => { ws with isOpen := isOpen }

/-- The channel after a sequence of actions. -/
def run (ws : Chan) (actions : List Action) : Chan :=
  actions.foldl step ws

/-- The channel when the program starts: `cmdId` is 1, nothing sent, the
socket not yet open, `logUnhandledEvent` installed. -/
def initialChan : Chan :=
  { isOpen := false, onmessage := .logUnhandledEvent, sent := [], cmdId := 1,
    timers := [], nextTimer := 1 }

/-- The settlements caused by a sequence of inbound messages that arrive after
`sendCmdCDP` has sent a command for which a response is expected. -/
def replySettlements (ws : Chan) (method : String) (params : Json) (sessionId : Option String)
    (msgs : List Msg) : List (Nat × Outcome) :=
  (deliverAll (sendCmdCDP ws method params false sessionId).1 msgs).2

/-- The `onmessage` slot after such a sequence of inbound messages. -/
def replyHandler (ws : Chan) (method : String) (params : Json) (sessionId : Option String)
    (msgs : List Msg) : Handler :=
  (deliverAll (sendCmdCDP ws method params false sessionId).1 msgs).1.onmessage

/-- The identifiers of the commands sent so far are strictly increasing and
below the counter. -/
def IdsIncreasing (ws : Chan) : Prop :=
  (ws.sent.map Cmd.id).Pairwise (· < ·) ∧ ∀ c ∈ ws.sent, c.id < ws.cmdId

/-! ## Operator session (`connectC2`) -/

/-- The details object of the error response built in the `catch` block of
`wsC2.onmessage`. -/
def errResDetails : Json :=
  .obj [("code", .num 400), ("headers", .obj [("content-type", .str "text/plain")]),
    ("cookies", .obj [])]

/-- The payload `errResPayload` for a caught value printed as `e`. -/
def errResPayload (e : String) : Bytes :=
  buildResPayload errResDetails (some (textEncode ("app.js: " ++ e ++ "\n").data))

/-- The closure state of one `connectC2` call and what its handlers have done:
the variable `fetchEnabled` (`none` is `undefined`), whether the variable
`wsC2` still holds the socket, the frames passed to `wsC2.send`, the calls of
`wsC2.close`, every call of `sendHttpReq` with the value `fetchEnabled` had
when it was made, the commands issued on the debugging channel, the
reconnections scheduled and the values logged as errors. -/
structure C2 where
  fetchEnabled : Option Bool
  wsC2 : Bool
  frames : List Bytes
  closeCalls : Nat
  handed : List (Json × Option Bytes × Option Bool)
  commands : List String
  reconnects : Nat
  logged : List String

/-- The state right after `connectC2` has created the socket. -/
def initialC2 : C2 :=
  { fetchEnabled := some false, wsC2 := true, frames := [], closeCalls := 0, handed := [],
    commands := [], reconnects := 0, logged := [] }

/-- The events of an operator connection. The two awaited calls are
represented by how they settle: `enableSettled` is the settlement of the
`Fetch.enable` command awaited in `onopen`, and `onmessage` carries the
outcome of `sendHttpReq` should the handler reach it, the handler being one
step (requests are single-flight). -/
inductive C2Event where
  | onopen
  | enableSettled (r : Except String Unit)
  | onmessage (payload : Bytes) (res : Except String (Json × Option Bytes))
  | onclose (connectedCDP : Bool)

/-- Statement `wsC2.send(payload)`; on an `undefined` `wsC2` it throws. -/
def c2Send (st : C2) (payload : Bytes) : Option C2 :=
  if st.wsC2 then some { st with frames := st.frames ++ [payload] } else none

/-- The `catch (e)` block of `wsC2.onmessage`: log, build the error payload,
send it. When the send throws, nothing catches it and no frame goes out. -/
def c2Catch (st : C2) (e : String) : C2 :=
  let st1 := { st with logged := st.logged ++ [e] }
  match c2Send st1 (errResPayload e) with
  | some st2 => st2
  | none => st1

/-- Text of the TypeError raised by `wsC2.send` on an `undefined` `wsC2`. -/
def sendOfUndefined : String := "TypeError: Cannot read property 'send' of undefined"

/-- Handler `wsC2.onmessage`: decode the payload, hand the request to
`sendHttpReq`, encode and send what it returns; whatever is thrown on the way
goes to the `catch` block. -/
def c2OnMessage (st : C2) (payload : Bytes) (res : Except String (Json × Option Bytes)) : C2 :=
  match processReqPayload payload with
  | .error e => c2Catch st e
  | .ok (reqDetails, reqBody) =>
    let st1 := { st with handed := st.handed ++ [(reqDetails, reqBody, st.fetchEnabled)] }
    match res with
    | .error e => c2Catch st1 e
    | .ok (resDetails, resBody) =>
      match c2Send st1 (buildResPayload resDetails resBody) with
      | some st2 => st2
      | none => c2Catch st1 sendOfUndefined

/-- The state after one event of the connection. -/
def c2Step (st : C2) : C2Event → C2
  | .onopen => { st with commands := st.commands ++ ["Fetch.enable"] }
  | .enableSettled (.ok _) => { st with fetchEnabled := some true }
  | .enableSettled (.error e) =>
    { st with logged := st.logged ++ [e],
              closeCalls := if st.wsC2 then st.closeCalls + 1 else st.closeCalls }
  | .onmessage payload res => c2OnMessage st payload res
  | .onclose connectedCDP =>
    if connectedCDP then
      { st with wsC2 := false,
                commands := if st.fetchEnabled = some true then st.commands ++ ["Fetch.disable"]
                            else st.commands,
                fetchEnabled := none,
                reconnects := st.reconnects + 1 }
    else { st with wsC2 := false }

/-- The state after a sequence of events. -/
def c2Run (st : C2) (events : List C2Event) : C2 :=
  events.foldl c2Step st

/-- Handler `wsC2.onmessage` up to its `await`: the payload is decoded; when
that throws, the `catch` block runs at once and the handler is done (`false`);
otherwise the request is handed to `sendHttpReq` and the handler is suspended
(`true`) until that call settles. -/
def c2Receive (st : C2) (payload : Bytes) : C2 × Bool :=
  match processReqPayload payload with
  | .error e => (c2Catch st e, false)
  | .ok (reqDetails, reqBody) =>
    ({ st with handed := st.handed ++ [(reqDetails, reqBody, st.fetchEnabled)] }, true)

/-- Handler `wsC2.onmessage` from its `await` on, resumed when `sendHttpReq`
has settled with `res`, in the state the connection has by then (other
handlers, `wsC2.onclose` among them, may have run in between): the response
is encoded and sent, or the `catch` block runs. -/
def c2Resume (st : C2) (res : Except String (Json × Option Bytes)) : C2 :=
  match res with
  | .error e => c2Catch st e
  | .ok (resDetails, resBody) =>
    match c2Send st (buildResPayload resDetails resBody) with
    | some st2 => st2
    | none => c2Catch st sendOfUndefined

/-! ## Request executor (`sendHttpReq`): the continue step -/

/-- The object `reqParams` as the `params` of the command. -/
def ReqParams.toJson (p : ReqParams) : Json :=
  .obj ([("requestId", .str p.requestId), ("method", .str p.method), ("url", .str p.url),
      ("headers", .arr (p.headers.map fun kv =>
        Json.obj [("name", .str kv.1), ("value", .str kv.2)]))] ++
    match p.postData with
    | some text => [("postData", .str text)]
    | none => [])

/-- Lines 221 and 222 of `sendHttpReq`: register the wait for the next
`Fetch.requestPaused` event with `HTTP_RES_TIMEOUT`, then call `sendCmdCDP`
for `Fetch.continueRequest` with `ignoreRes` true. The channel afterwards, the
state of `resPromise` and the state of the awaited call. -/
def continueRequest (ws : Chan) (reqParams : ReqParams) (sessionId : Option String) :
    Chan × CallState × CallState :=
  let w := waitForEventCDP ws "Fetch.requestPaused" HTTP_RES_TIMEOUT
  let c := sendCmdCDP w.1 "Fetch.continueRequest" reqParams.toJson true sessionId
  (c.1, w.2, c.2)

/-! ## Lifecycle (`main`) -/

/-- A function passed to `setTimeout` by the lifecycle code. -/
inductive Scheduled where
  | main
  | connectC2
  deriving DecidableEq

/-- A call `connectC2(wsCDP, sessionId)` given the operator connections made so
far: the function creates a connection, installs its handlers and ends without
a `return` statement, so the value of the call is `undefined` (`none`) and not
the connection it created. -/
def connectC2 (operators : List C2) : List C2 × Option Nat :=
  (operators ++ [initialC2], none)

/-- The state the lifecycle code works on: the global `connectedCDP`; the
variables `wsCDP` (whether it still holds the debugging socket) and `wsC2`
(the operator connection it holds, `none` for `undefined`) of the current
`main` call; the session id once the target is attached; the operator
connections created so far; the operator connections on which `main` has
called `close`; the calls of `wsCDP.close`; the `setTimeout` calls of `main`
with their delay. -/
structure Lifecycle where
  connectedCDP : Bool
  wsCDP : Bool
  wsC2 : Option Nat
  sessionId : Option String
  operators : List C2
  closed : List Nat
  cdpCloseCalls : Nat
  timeouts : List (Nat × Scheduled)

/-- The state when `main` is first called. -/
def initialLifecycle : Lifecycle :=
  { connectedCDP := false, wsCDP := true, wsC2 := none, sessionId := none, operators := [],
    closed := [], cdpCloseCalls := 0, timeouts := [] }

/-- The events of the lifecycle: the debugging socket opens; the `try` block
of `wsCDP.onopen` obtains its session id and reaches the call of `connectC2`;
that block throws; the debugging socket closes; an event of the operator
connection with the given index; the `connectC2` scheduled by an operator
connection runs; the `main` scheduled by `wsCDP.onclose` runs. -/
inductive LifecycleEvent where
  | onopen
  | attached (sessionId : String)
  | failed (e : String)
  | onclose
  | operator (index : Nat) (event : C2Event)
  | reconnectC2
  | restart

/-- Apply a function to the element at an index, if there is one. -/
def updateAt : List C2 → Nat → (C2 → C2) → List C2
  | [], _, _ => []
  | x :: xs, 0, f => f x :: xs
  | x :: xs, i + 1, f => x :: updateAt xs i f

/-- The state after one event. Handler `wsCDP.onclose` is the case `onclose`:
it clears `connectedCDP`, closes the operator connection that `wsC2` holds,
if it holds one, clears both variables and schedules `main`. An operator
connection reads the global `connectedCDP` in its own `onclose`. -/
def lifecycleStep (st : Lifecycle) : LifecycleEvent → Lifecycle
  | .onopen => { st with connectedCDP := true }
  | .attached sessionId =>
    let r := connectC2 st.operators
    { st with sessionId := some sessionId, operators := r.1, wsC2 := r.2 }
  | .failed _ => { st with cdpCloseCalls := if st.wsCDP then st.cdpCloseCalls + 1 else st.cdpCloseCalls }
  | .onclose =>
    let st1 := { st with connectedCDP := false }
    let st2 :=
      match st1.wsC2 with
      | some i => { st1 with closed := st1.closed ++ [i], wsC2 := none }
      | none => st1
    { st2 with wsCDP := false, timeouts := st2.timeouts ++ [(WS_RECONNECT_MS, .main)] }
  | .operator index event =>
    { st with operators := updateAt st.operators index fun c =>
        c2Step c (match event with
          | .onclose _ => .onclose st.connectedCDP
          | e => e) }
  | .reconnectC2 => { st with operators := (connectC2 st.operators).1 }
  | .restart => { st with wsCDP := true, wsC2 := none, sessionId := none }

/-- The state after a sequence of events. -/
def lifecycleRun (st : Lifecycle) (events : List LifecycleEvent) : Lifecycle :=
  events.foldl lifecycleStep st

/-! ## Lemmas: reading back what `JSON.stringify` printed -/

theorem hex4_hexDigit : ∀ n < 32, hex4 '0' '0' (hexDigit (n / 16)) (hexDigit (n % 16)) = some n := by
  decide

theorem char_eq_of_toNat {c : Char} {n : Nat} (h : c.toNat = n) : c = Char.ofNat n := by
  rw [← h]; exact (Char.ofNat_toNat c).symm

theorem quoteChar_length_pos (c : Char) : 0 < (quoteChar c).length := by
  unfold quoteChar
  repeat' split
  all_goals simp

/-- Reading one quoted character gives the character back. -/
theorem parseStringBody_quoteChar (c : Char) (fuel : Nat) (tail : List Char) :
    parseStringBody (fuel + 1) (quoteChar c ++ tail) = consChar c (parseStringBody fuel tail) := by
  unfold quoteChar
  split
  · next h => subst h; simp [parseStringBody, readEscape, unescape]
  split
  · next h => subst h; simp [parseStringBody, readEscape, unescape]
  split
  · next h => rw [char_eq_of_toNat h]; simp [parseStringBody, readEscape, unescape]
  split
  · next h => rw [char_eq_of_toNat h]; simp [parseStringBody, readEscape, unescape]
  split
  · next h => rw [char_eq_of_toNat h]; simp [parseStringBody, readEscape, unescape]
  split
  · next h => rw [char_eq_of_toNat h]; simp [parseStringBody, readEscape, unescape]
  split
  · next h => rw [char_eq_of_toNat h]; simp [parseStringBody, readEscape, unescape]
  split
  · next h1 h2 h3 h4 h5 h6 h7 h =>
    have h8 : c.toNat < 0xD800 := by omega
    simp [parseStringBody, readEscape, hex4_hexDigit _ h, h8, Char.ofNat_toNat]
  · next h1 h2 h3 h4 h5 h6 h7 h =>
    simp [parseStringBody, h1, h2, h]

theorem parseStringBody_quoteChars (s : List Char) :
    ∀ (fuel : Nat) (rest : List Char), s.length + 1 ≤ fuel →
      parseStringBody fuel (quoteChars s ++ '"' :: rest) = some (s, rest) := by
  induction s with
  | nil =>
    intro fuel rest h
    obtain ⟨f, rfl⟩ : ∃ f, fuel = f + 1 := ⟨fuel - 1, by omega⟩
    simp [quoteChars, parseStringBody]
  | cons c cs ih =>
    intro fuel rest h
    obtain ⟨f, rfl⟩ : ∃ f, fuel = f + 1 := ⟨fuel - 1, by omega⟩
    simp only [quoteChars, List.append_assoc]
    rw [parseStringBody_quoteChar, ih f rest (by simpa using h)]
    rfl

theorem length_le_quoteChars (s : List Char) : s.length ≤ (quoteChars s).length := by
  induction s with
  | nil => simp
  | cons c cs ih =>
    have := quoteChar_length_pos c
    simp only [quoteChars, List.length_append, List.length_cons]
    omega

/-- A quoted string is read back up to its closing quote. -/
theorem parseString_quoteChars (s rest : List Char) :
    parseString (quoteChars s ++ '"' :: rest) = some (s, rest) := by
  unfold parseString
  apply parseStringBody_quoteChars
  have := length_le_quoteChars s
  simp only [List.length_append, List.length_cons]
  omega

theorem digit_toNat (d : Nat) (h : d < 10) : (Char.ofNat (48 + d)).toNat = 48 + d := by
  revert d; decide

theorem parseDigits_cons_digit (d : Nat) (h : d < 10) (cs : List Char) (acc : Nat) :
    parseDigits (Char.ofNat (48 + d) :: cs) acc = parseDigits cs (acc * 10 + d) := by
  simp [parseDigits, digit_toNat d h]
  omega

/-- The digits printed for a positive number start with a non-zero digit, and
reading the remaining digits from that digit's value gives the number. -/
theorem natDigits_spec : ∀ (fuel n : Nat), 0 < n → n < fuel →
    ∃ c tail, natDigits fuel n = c :: tail ∧ 49 ≤ c.toNat ∧ c.toNat ≤ 57 ∧
      ∀ rest, parseDigits (tail ++ rest) (c.toNat - 48) = parseDigits rest n := by
  intro fuel
  induction fuel with
  | zero => intro n _ h; omega
  | succ f ih =>
    intro n hpos hlt
    unfold natDigits
    by_cases h10 : n < 10
    · refine ⟨Char.ofNat (48 + n), [], by simp [h10], ?_, ?_, ?_⟩
      · rw [digit_toNat n h10]; omega
      · rw [digit_toNat n h10]; omega
      · intro rest; rw [digit_toNat n h10]; simp
    · obtain ⟨c, tail, he, h1, h2, h3⟩ := ih (n / 10) (by omega) (by omega)
      refine ⟨c, tail ++ [Char.ofNat (48 + n % 10)], by simp [h10, he], h1, h2, ?_⟩
      intro rest
      rw [List.append_assoc, h3]
      simp only [List.singleton_append]
      rw [parseDigits_cons_digit _ (Nat.mod_lt _ (by decide))]
      congr 1
      omega

theorem parseDigits_sep (sep : Char) (hs : sep = ',' ∨ sep = '}') (r : List Char) (n : Nat) :
    parseDigits (sep :: r) n = (n, sep :: r) := by
  rcases hs with rfl | rfl <;> simp [parseDigits]

theorem sep_not_fraction (sep : Char) (hs : sep = ',' ∨ sep = '}') :
    ¬ (sep = '.' ∨ sep = 'e' ∨ sep = 'E') := by
  rcases hs with rfl | rfl <;> decide

theorem parseUnsigned_natDigits (n : Nat) (sep : Char) (hs : sep = ',' ∨ sep = '}')
    (r : List Char) :
    parseUnsigned (natDigits (n + 1) n ++ sep :: r) = some (n, sep :: r) := by
  by_cases h0 : n = 0
  · subst h0
    simp [natDigits, parseUnsigned, sep_not_fraction sep hs]
  · obtain ⟨c, tail, he, h1, h2, h3⟩ := natDigits_spec (n + 1) n (by omega) (by omega)
    rw [he]
    have hc : c ≠ '0' := by
      intro h; subst h; revert h1; decide
    simp only [List.cons_append, parseUnsigned, hc, if_false, h1, h2, and_self, if_true, h3,
      parseDigits_sep sep hs, sep_not_fraction sep hs]

/-- A printed integer is read back in front of a comma or a closing brace. -/
theorem parseNumber_intToChars (n : Int) (sep : Char) (hs : sep = ',' ∨ sep = '}')
    (r : List Char) :
    parseNumber (intToChars n ++ sep :: r) = some (n, sep :: r) := by
  unfold intToChars
  by_cases hneg : n < 0
  · have hn : -(n.natAbs : Int) = n := by omega
    simp only [hneg, if_true, List.cons_append, parseNumber, parseUnsigned_natDigits _ _ hs,
      Option.map_some', hn]
  · simp only [hneg, if_false]
    by_cases h0 : n.natAbs = 0
    · have : n = 0 := by omega
      subst this
      simp [natDigits, parseNumber, parseUnsigned, sep_not_fraction sep hs]
    · obtain ⟨c, tail, he, h1, h2, h3⟩ :=
        natDigits_spec (n.natAbs + 1) n.natAbs (by omega) (by omega)
      have hu := parseUnsigned_natDigits n.natAbs sep hs r
      rw [he] at hu ⊢
      have hc : c ≠ '-' := by
        intro h; subst h; revert h1; decide
      simp only [List.cons_append] at hu ⊢
      have hn : (n.natAbs : Int) = n := by omega
      simp only [parseNumber, hc, if_false, hu, Option.map_some', hn]

theorem intToChars_head (n : Int) :
    ∃ c tail, intToChars n = c :: tail ∧ (c = '-' ∨ (48 ≤ c.toNat ∧ c.toNat ≤ 57)) := by
  unfold intToChars
  split
  · exact ⟨'-', _, rfl, Or.inl rfl⟩
  · by_cases h0 : n.natAbs = 0
    · refine ⟨'0', [], ?_, Or.inr (by decide)⟩
      rw [h0]; rfl
    · obtain ⟨c, tail, he, h1, h2, _⟩ :=
        natDigits_spec (n.natAbs + 1) n.natAbs (by omega) (by omega)
      exact ⟨c, tail, he, Or.inr ⟨by omega, h2⟩⟩

theorem objSet_append_new {α : Type} (acc : List (String × α)) (k : String) (v : α)
    (h : k ∉ acc.map Prod.fst) : objSet acc k v = acc ++ [(k, v)] := by
  induction acc with
  | nil => rfl
  | cons a tl ih =>
    obtain ⟨k0, v0⟩ := a
    simp only [List.map_cons, List.mem_cons, not_or] at h
    have hne : ¬ k0 = k := fun e => h.1 e.symm
    simp [objSet, hne, ih h.2]

theorem skipWs_quote (cs : List Char) : skipWs ('"' :: cs) = '"' :: cs := by
  simp [skipWs, isWs]

theorem skipWs_colon (cs : List Char) : skipWs (':' :: cs) = ':' :: cs := by
  simp [skipWs, isWs]

theorem skipWs_comma (cs : List Char) : skipWs (',' :: cs) = ',' :: cs := by
  simp [skipWs, isWs]

theorem skipWs_rbrace (cs : List Char) : skipWs ('}' :: cs) = '}' :: cs := by
  simp [skipWs, isWs]

theorem skipWs_lbrace (cs : List Char) : skipWs ('{' :: cs) = '{' :: cs := by
  simp [skipWs, isWs]

/-- The printed members of an object are read back in order, given that each
value is and that no key repeats. -/
theorem parseMembers_stringifyMembers (n : Nat) (kvs : List (String × Json)) :
    ∀ (acc : List (String × Json)) (fuel : Nat) (rest : List Char),
      kvs ≠ [] → (∀ kv ∈ kvs, ReadsBack n kv.2) → kvs.length + n ≤ fuel →
      ((acc ++ kvs).map Prod.fst).Nodup →
      parseMembers fuel (stringifyMembers kvs ++ '}' :: rest) acc =
        some (Json.obj (acc ++ kvs), rest) := by
  induction kvs with
  | nil => intro _ _ _ h; exact absurd rfl h
  | cons kv tl ih =>
    intro acc fuel rest _ hv hf hnd
    obtain ⟨k, v⟩ := kv
    obtain ⟨f, rfl⟩ : ∃ f, fuel = f + 1 := ⟨fuel - 1, by simp at hf; omega⟩
    have hk : k ∉ acc.map Prod.fst := by
      intro hmem
      rw [List.map_append, List.nodup_append] at hnd
      exact hnd.2.2 hmem (by simp)
    have hset : objSet acc k v = acc ++ [(k, v)] := objSet_append_new acc k v hk
    have hrb : ReadsBack n v := hv (k, v) (by simp)
    have hmk : (⟨k.data⟩ : String) = k := rfl
    cases tl with
    | nil =>
      simp only [stringifyMembers, quoteString, List.cons_append, List.append_assoc,
        List.nil_append]
      rw [parseMembers]
      simp only [skipWs_quote, if_true, parseString_quoteChars, skipWs_colon]
      rw [hrb f '}' rest (by simp at hf; omega) (Or.inr rfl)]
      simp [skipWs_rbrace, hset]
    | cons y r =>
      simp only [stringifyMembers, quoteString, List.cons_append, List.append_assoc,
        List.nil_append]
      rw [parseMembers]
      simp only [skipWs_quote, if_true, parseString_quoteChars, skipWs_colon]
      rw [hrb f ',' _ (by simp at hf; omega) (Or.inl rfl)]
      simp only [skipWs_comma, if_true, hset, hmk]
      rw [ih (acc ++ [(k, v)]) f rest (by simp) (fun kv h => hv kv (by simp [h]))
        (by simp at hf ⊢; omega) (by simpa using hnd)]
      simp

theorem readsBack_str (s : String) : ReadsBack 1 (.str s) := by
  intro fuel sep rest hf _
  obtain ⟨f, rfl⟩ : ∃ f, fuel = f + 1 := ⟨fuel - 1, by omega⟩
  simp only [stringify, quoteString, List.cons_append, List.append_assoc, List.nil_append]
  rw [parseValue]
  simp [skipWs_quote, parseString_quoteChars]

theorem readsBack_num (n : Int) : ReadsBack 1 (.num n) := by
  intro fuel sep rest hf hs
  obtain ⟨f, rfl⟩ : ∃ f, fuel = f + 1 := ⟨fuel - 1, by omega⟩
  have hp := parseNumber_intToChars n sep hs rest
  obtain ⟨c, tail, he, hc⟩ := intToChars_head n
  simp only [stringify]
  rw [he] at hp ⊢
  simp only [List.cons_append] at hp ⊢
  have hws : isWs c = false := by
    rcases hc with h | h
    · subst h; decide
    · simp only [isWs, Bool.or_eq_false_iff, decide_eq_false_iff_not]
      refine ⟨⟨⟨?_, ?_⟩, ?_⟩, ?_⟩
      · intro e; subst e; revert h; decide
      all_goals omega
  have hne : ∀ x : Char, (x.toNat < 45 ∨ 57 < x.toNat) → c ≠ x := by
    intro x hx e
    subst e
    rcases hc with h | h
    · subst h; revert hx; decide
    · omega
  rw [parseValue]
  simp only [skipWs, hws, Bool.false_eq_true, if_false]
  rw [if_neg (hne _ (by decide)), if_neg (hne _ (by decide)), if_neg (hne _ (by decide)),
    if_neg (hne _ (by decide)), if_neg (hne _ (by decide)), if_neg (hne _ (by decide)), hp]
  rfl

/-- A printed object is read back, whatever follows it, given that each of its
values is read back and that no key repeats. -/
theorem parseValue_obj (n : Nat) (kvs : List (String × Json))
    (hv : ∀ kv ∈ kvs, ReadsBack n kv.2) (hnd : (kvs.map Prod.fst).Nodup)
    (fuel : Nat) (rest : List Char) (hf : kvs.length + n + 1 ≤ fuel) :
    parseValue fuel (stringify (.obj kvs) ++ rest) = some (.obj kvs, rest) := by
  obtain ⟨f, rfl⟩ : ∃ f, fuel = f + 1 := ⟨fuel - 1, by omega⟩
  simp only [stringify, List.cons_append, List.append_assoc, List.nil_append]
  rw [parseValue]
  simp only [skipWs_lbrace]
  cases kvs with
  | nil => simp [stringifyMembers, skipWs_rbrace]
  | cons kv tl =>
    obtain ⟨k, v⟩ := kv
    have hq : ∃ t, stringifyMembers ((k, v) :: tl) = '"' :: t := by
      cases tl <;> simp [stringifyMembers, quoteString]
    obtain ⟨t, ht⟩ := hq
    have hm := parseMembers_stringifyMembers n ((k, v) :: tl) [] f rest (by simp) hv
      (by simp at hf ⊢; omega) (by simpa using hnd)
    rw [ht] at hm ⊢
    simp only [List.cons_append] at hm ⊢
    simp only [skipWs_quote]
    rw [if_neg (by decide), if_pos True.intro, if_neg (by decide), hm]
    simp

theorem readsBack_obj (n : Nat) (kvs : List (String × Json))
    (hv : ∀ kv ∈ kvs, ReadsBack n kv.2) (hnd : (kvs.map Prod.fst).Nodup) :
    ReadsBack (kvs.length + n + 1) (.obj kvs) := by
  intro fuel sep rest hf _
  exact parseValue_obj n kvs hv hnd fuel (sep :: rest) hf

theorem readsBack_mono {n m : Nat} {v : Json} (h : ReadsBack n v) (hnm : n ≤ m) :
    ReadsBack m v :=
  fun fuel sep rest hf hs => h fuel sep rest (le_trans hnm hf) hs

theorem readsBack_headersJson (h : Headers) (hd : keysDistinct h) :
    ReadsBack (h.length + 2) (headersJson h) := by
  unfold headersJson
  have := readsBack_obj 1 (h.map fun kv => (kv.1, Json.str kv.2))
    (by
      intro kv hkv
      simp only [List.mem_map] at hkv
      obtain ⟨a, _, rfl⟩ := hkv
      exact readsBack_str _)
    (by simpa [keysDistinct, List.map_map, Function.comp_def] using hd)
  simpa using this

/-- The text printed for a details object is read back, with fuel in
proportion to the number of headers and cookies. -/
theorem parseValue_details (d : Details) (hd : d.wellFormed) (fuel : Nat) :
    (match d with
      | .request _ _ h => h.length + 6
      | .response _ h k => h.length + k.length + 6) ≤ fuel →
    parseValue fuel (stringify d.toJson) = some (d.toJson, []) := by
  intro hf
  cases d with
  | request m u h =>
    have := parseValue_obj (h.length + 2)
      [("method", .str m), ("url", .str u), ("headers", headersJson h)]
      (by
        intro kv hkv
        simp only [List.mem_cons, List.mem_singleton, List.not_mem_nil, or_false] at hkv
        rcases hkv with rfl | rfl | rfl
        · exact readsBack_mono (readsBack_str _) (by omega)
        · exact readsBack_mono (readsBack_str _) (by omega)
        · exact readsBack_headersJson h hd)
      (by simp) fuel [] (by simp at hf ⊢; omega)
    simpa [Details.toJson] using this
  | response c h k =>
    have := parseValue_obj (h.length + k.length + 2)
      [("code", .num c), ("headers", headersJson h), ("cookies", headersJson k)]
      (by
        intro kv hkv
        simp only [List.mem_cons, List.mem_singleton, List.not_mem_nil, or_false] at hkv
        rcases hkv with rfl | rfl | rfl
        · exact readsBack_mono (readsBack_num _) (by omega)
        · exact readsBack_mono (readsBack_headersJson h hd.1) (by omega)
        · exact readsBack_mono (readsBack_headersJson k hd.2) (by omega))
      (by simp) fuel [] (by simp at hf ⊢; omega)
    simpa [Details.toJson] using this
theorem cleanText_nil : CleanText [] := by intro c h; simp at h
theorem cleanText_cons {c : Char} {cs : List Char} :
    CleanText (c :: cs) ↔ (0 < c.toNat ∧ c.toNat < 128) ∧ CleanText cs := by
  simp [CleanText]
theorem cleanText_append {a b : List Char} :
    CleanText (a ++ b) ↔ CleanText a ∧ CleanText b := by
  simp only [CleanText, List.mem_append]
  constructor
  · intro h; exact ⟨fun c hc => h c (Or.inl hc), fun c hc => h c (Or.inr hc)⟩
  · rintro ⟨h1, h2⟩ c (hc | hc)
    · exact h1 c hc
    · exact h2 c hc

theorem hexDigit_clean : ∀ n < 16, 0 < (hexDigit n).toNat ∧ (hexDigit n).toNat < 128 := by
  decide




theorem cleanText_quoteChar (c : Char) (h : c.toNat < 128) : CleanText (quoteChar c) := by
  unfold quoteChar
  repeat' split
  all_goals
    first
    | (intro x hx
       simp only [List.mem_cons, List.mem_singleton, List.not_mem_nil, or_false] at hx
       rcases hx with rfl | rfl
       all_goals decide)
    | skip
  · intro x hx
    simp only [List.mem_cons, List.mem_singleton, List.not_mem_nil, or_false] at hx
    rcases hx with rfl | rfl | rfl | rfl | rfl | rfl
    · decide
    · decide
    · decide
    · decide
    · exact hexDigit_clean _ (by omega)
    · exact hexDigit_clean _ (by omega)
  · next h1 h2 h3 h4 h5 h6 h7 h8 =>
    intro x hx
    simp only [List.mem_singleton] at hx
    subst hx
    omega

theorem cleanText_quoteChars (s : List Char) (h : ∀ c ∈ s, c.toNat < 128) :
    CleanText (quoteChars s) := by
  induction s with
  | nil => exact cleanText_nil
  | cons c cs ih =>
    simp only [quoteChars]
    exact cleanText_append.2 ⟨cleanText_quoteChar c (h c (by simp)),
      ih (fun x hx => h x (by simp [hx]))⟩

theorem cleanText_quoteString (s : String) (h : asciiString s) : CleanText (quoteString s) := by
  unfold quoteString
  refine cleanText_cons.2 ⟨by decide, cleanText_append.2 ⟨cleanText_quoteChars _ h, ?_⟩⟩
  exact cleanText_cons.2 ⟨by decide, cleanText_nil⟩

theorem cleanText_natDigits (fuel n : Nat) : CleanText (natDigits fuel n) := by
  induction fuel generalizing n with
  | zero => exact cleanText_nil
  | succ f ih =>
    unfold natDigits
    split
    · next h => exact cleanText_cons.2 ⟨by rw [digit_toNat n h]; omega, cleanText_nil⟩
    · refine cleanText_append.2 ⟨ih _, cleanText_cons.2 ⟨?_, cleanText_nil⟩⟩
      rw [digit_toNat _ (Nat.mod_lt _ (by decide))]
      omega

theorem cleanText_intToChars (n : Int) : CleanText (intToChars n) := by
  unfold intToChars
  split
  · exact cleanText_cons.2 ⟨by decide, cleanText_natDigits _ _⟩
  · exact cleanText_natDigits _ _

theorem cleanText_members (h : Headers) (ha : asciiHeaders h) :
    CleanText (stringifyMembers (h.map fun kv => (kv.1, Json.str kv.2))) := by
  induction h with
  | nil => simp [stringifyMembers]; exact cleanText_nil
  | cons kv tl ih =>
    have hkv := ha kv (by simp)
    have htl : asciiHeaders tl := fun x hx => ha x (by simp [hx])
    have ih' := ih htl
    cases tl with
    | nil =>
      simp only [List.map_cons, List.map_nil, stringifyMembers, stringify]
      exact cleanText_append.2 ⟨cleanText_quoteString _ hkv.1,
        cleanText_cons.2 ⟨by decide, cleanText_quoteString _ hkv.2⟩⟩
    | cons y r =>
      simp only [List.map_cons, stringifyMembers, stringify] at ih' ⊢
      exact cleanText_append.2 ⟨cleanText_quoteString _ hkv.1,
        cleanText_cons.2 ⟨by decide, cleanText_append.2 ⟨cleanText_quoteString _ hkv.2,
          cleanText_cons.2 ⟨by decide, ih'⟩⟩⟩⟩

theorem cleanText_headersJson (h : Headers) (ha : asciiHeaders h) :
    CleanText (stringify (headersJson h)) := by
  simp only [headersJson, stringify]
  exact cleanText_cons.2 ⟨by decide, cleanText_append.2 ⟨cleanText_members h ha,
    cleanText_cons.2 ⟨by decide, cleanText_nil⟩⟩⟩

theorem cleanText_details (d : Details) (ha : d.ascii) : CleanText (stringify d.toJson) := by
  cases d with
  | request m u h =>
    obtain ⟨hm, hu, hh⟩ := ha
    simp only [Details.toJson, stringify, stringifyMembers]
    refine cleanText_cons.2 ⟨by decide, cleanText_append.2 ⟨?_, cleanText_cons.2 ⟨by decide, cleanText_nil⟩⟩⟩
    refine cleanText_append.2 ⟨cleanText_quoteString _ (by unfold asciiString; decide), cleanText_cons.2 ⟨by decide, ?_⟩⟩
    refine cleanText_append.2 ⟨cleanText_quoteString _ hm, cleanText_cons.2 ⟨by decide, ?_⟩⟩
    refine cleanText_append.2 ⟨cleanText_quoteString _ (by unfold asciiString; decide), cleanText_cons.2 ⟨by decide, ?_⟩⟩
    refine cleanText_append.2 ⟨cleanText_quoteString _ hu, cleanText_cons.2 ⟨by decide, ?_⟩⟩
    refine cleanText_append.2 ⟨cleanText_quoteString _ (by unfold asciiString; decide), cleanText_cons.2 ⟨by decide, ?_⟩⟩
    exact cleanText_headersJson h hh
  | response c h k =>
    obtain ⟨hh, hk⟩ := ha
    simp only [Details.toJson, stringify, stringifyMembers]
    refine cleanText_cons.2 ⟨by decide, cleanText_append.2 ⟨?_, cleanText_cons.2 ⟨by decide, cleanText_nil⟩⟩⟩
    refine cleanText_append.2 ⟨cleanText_quoteString _ (by unfold asciiString; decide), cleanText_cons.2 ⟨by decide, ?_⟩⟩
    refine cleanText_append.2 ⟨cleanText_intToChars _, cleanText_cons.2 ⟨by decide, ?_⟩⟩
    refine cleanText_append.2 ⟨cleanText_quoteString _ (by unfold asciiString; decide), cleanText_cons.2 ⟨by decide, ?_⟩⟩
    refine cleanText_append.2 ⟨cleanText_headersJson h hh, cleanText_cons.2 ⟨by decide, ?_⟩⟩
    refine cleanText_append.2 ⟨cleanText_quoteString _ (by unfold asciiString; decide), cleanText_cons.2 ⟨by decide, ?_⟩⟩
    exact cleanText_headersJson k hk

/-! ## Lemmas: the bytes of the frame -/

theorem textEncode_clean (t : List Char) (h : CleanText t) :
    textEncode t = t.map Char.toNat := by
  induction t with
  | nil => rfl
  | cons c cs ih =>
    have hc := (cleanText_cons.1 h).1
    simp [textEncode, utf8EncodeChar, hc.2, ih (cleanText_cons.1 h).2]

theorem textEncode_clean_nonzero (t : List Char) (h : CleanText t) :
    ∀ b ∈ textEncode t, b ≠ 0 := by
  rw [textEncode_clean t h]
  intro b hb
  simp only [List.mem_map] at hb
  obtain ⟨c, hc, rfl⟩ := hb
  have := (h c hc).1
  omega

theorem map_ofNat_textEncode (t : List Char) (h : CleanText t) :
    (textEncode t).map Char.ofNat = t := by
  rw [textEncode_clean t h, List.map_map]
  conv_rhs => rw [← List.map_id t]
  apply List.map_congr_left
  intro c _
  simp [Char.ofNat_toNat]

/-- The scan of `processReqPayload` stops at the first zero byte. -/
theorem scanDetails_append (pre : Bytes) (h0 : ∀ b ∈ pre, b ≠ 0) (post : Bytes) :
    ∀ acc : List Char,
      scanDetails (pre ++ 0 :: post) acc = .ok (acc ++ pre.map Char.ofNat, post) := by
  induction pre with
  | nil => intro acc; simp [scanDetails]
  | cons b bs ih =>
    intro acc
    have hb : b ≠ 0 := h0 b (by simp)
    show scanDetails (b :: (bs ++ 0 :: post)) acc = _
    rw [scanDetails]
    simp only [hb, if_false]
    rw [ih (fun x hx => h0 x (by simp [hx]))]
    simp

/-- Without a zero byte the scan runs off the end of the buffer. -/
theorem scanDetails_no_zero (buf : Bytes) (h0 : ∀ b ∈ buf, b ≠ 0) :
    ∀ acc : List Char, scanDetails buf acc = .error noTerminator := by
  induction buf with
  | nil => intro acc; rfl
  | cons b bs ih =>
    intro acc
    have hb : b ≠ 0 := h0 b (by simp)
    simp only [scanDetails, hb, if_false]
    exact ih (fun x hx => h0 x (by simp [hx])) _

/-- A buffer with a zero byte splits at the first one. -/
theorem split_at_first_zero (buf : Bytes) (h : 0 ∈ buf) :
    ∃ pre post, buf = pre ++ 0 :: post ∧ ∀ b ∈ pre, b ≠ 0 := by
  induction buf with
  | nil => simp at h
  | cons b bs ih =>
    by_cases hb : b = 0
    · exact ⟨[], bs, by simp [hb], by simp⟩
    · have : 0 ∈ bs := by
        rcases List.mem_cons.1 h with h | h
        · exact absurd h.symm hb
        · exact h
      obtain ⟨pre, post, he, hp⟩ := ih this
      refine ⟨b :: pre, post, by simp [he], ?_⟩
      intro x hx
      rcases List.mem_cons.1 hx with rfl | hx
      · exact hb
      · exact hp x hx

/-- What `processReqPayload` returns on a buffer split at its first zero byte. -/
theorem processReqPayload_split (pre post : Bytes) (h0 : ∀ b ∈ pre, b ≠ 0) :
    processReqPayload (pre ++ 0 :: post) =
      match jsonParse (pre.map Char.ofNat) with
      | none => .error invalidJson
      | some reqDetails => .ok (reqDetails, if post.length = 0 then none else some post) := by
  unfold processReqPayload
  rw [scanDetails_append pre h0 post []]
  simp only [List.nil_append]

/-- Decoding a frame built from a details object whose printed text is clean
and is read back by `JSON.parse`. -/
theorem processReqPayload_buildResPayload (j : Json) (body : Option Bytes)
    (hclean : CleanText (stringify j)) (hparse : jsonParse (stringify j) = some j)
    (hbody : body ≠ some []) :
    processReqPayload (buildResPayload j body) = .ok (j, body) := by
  have h0 := textEncode_clean_nonzero _ hclean
  cases body with
  | none =>
    simp only [buildResPayload]
    rw [processReqPayload_split _ [] h0, map_ofNat_textEncode _ hclean, hparse]
    simp
  | some b =>
    have hb : b.length ≠ 0 := by
      intro h
      exact hbody (by rw [List.length_eq_zero.1 h])
    simp only [buildResPayload]
    rw [processReqPayload_split _ b h0, map_ofNat_textEncode _ hclean, hparse]
    simp [hb]

theorem length_members_ge (kvs : List (String × Json)) :
    kvs.length ≤ (stringifyMembers kvs).length := by
  induction kvs with
  | nil => simp
  | cons kv tl ih =>
    obtain ⟨k, v⟩ := kv
    cases tl with
    | nil => simp [stringifyMembers, quoteString]
    | cons y r =>
      simp only [stringifyMembers, quoteString, List.length_append, List.length_cons] at ih ⊢
      omega

theorem length_headersJson_ge (h : Headers) : h.length ≤ (stringify (headersJson h)).length := by
  have := length_members_ge (h.map fun kv => (kv.1, Json.str kv.2))
  simp only [List.length_map] at this
  simp only [headersJson, stringify, List.length_cons, List.length_append]
  omega

theorem stringify_obj (kvs : List (String × Json)) :
    stringify (.obj kvs) = '{' :: (stringifyMembers kvs ++ ['}']) := by
  rw [stringify]

theorem stringify_str (s : String) : stringify (.str s) = quoteString s := by
  rw [stringify]

theorem stringify_num (n : Int) : stringify (.num n) = intToChars n := by
  rw [stringify]

theorem jsonParse_details (d : Details) (hd : d.wellFormed) :
    jsonParse (stringify d.toJson) = some d.toJson := by
  unfold jsonParse
  rw [parseValue_details d hd]
  · simp [skipWs]
  · cases d with
    | request m u h =>
      have := length_headersJson_ge h
      simp only [Details.toJson, stringify_obj, stringify_str, stringify_num, stringifyMembers,
        quoteString, List.length_cons, List.length_append]
      omega
    | response c h k =>
      have := length_headersJson_ge h
      have := length_headersJson_ge k
      simp only [Details.toJson, stringify_obj, stringify_str, stringify_num, stringifyMembers,
        quoteString, List.length_cons, List.length_append]
      omega
/-! ## Lemmas: the request executor -/

set_option maxRecDepth 100000 in
theorem decodeByte_isSome : ∀ b < 256, (decodeByte b).isSome = true := by
  decide

theorem textDecodeAscii_isSome (body : Bytes) (h : ∀ b ∈ body, b < 256) :
    ∃ text, textDecodeAscii body = some text := by
  induction body with
  | nil => exact ⟨[], rfl⟩
  | cons b bs ih =>
    obtain ⟨cs, hcs⟩ := ih (fun x hx => h x (by simp [hx]))
    obtain ⟨c, hc⟩ := Option.isSome_iff_exists.1 (decodeByte_isSome b (h b (by simp)))
    exact ⟨c :: cs, by simp [textDecodeAscii, hc, hcs]⟩

theorem objGet_objDelete_self (o : Headers) (k : String) : objGet (objDelete o k) k = none := by
  induction o with
  | nil => rfl
  | cons a tl ih =>
    obtain ⟨k0, v0⟩ := a
    by_cases h : k0 = k
    · simp [objDelete, h, ih]
    · simp [objDelete, objGet, h, ih]

theorem objGet_objDelete_other (o : Headers) (k k' : String) (h : k ≠ k') :
    objGet (objDelete o k') k = objGet o k := by
  induction o with
  | nil => rfl
  | cons a tl ih =>
    obtain ⟨k0, v0⟩ := a
    by_cases h0 : k0 = k'
    · have : ¬ k0 = k := fun e => h (e.symm.trans h0)
      simp only [objDelete, objGet, h0, if_true, ih]
      rw [if_neg (fun e => h e.symm)]
    · by_cases h1 : k0 = k
      · subst h1
        simp only [objDelete, objGet, h0, if_false, if_true]
      · simp only [objDelete, objGet, h0, if_false, h1, ih]

theorem truthy_stripHeaders_of_falsy (names : List String) :
    ∀ (o : Headers) (k : String), truthy (objGet o k) = false →
      truthy (objGet (stripHeaders names o) k) = false := by
  induction names with
  | nil => intro o k h; exact h
  | cons n rest ih =>
    intro o k h
    simp only [stripHeaders]
    apply ih
    split
    · by_cases hk : k = n
      · subst hk; rw [objGet_objDelete_self]; rfl
      · rw [objGet_objDelete_other _ _ _ hk]; exact h
    · exact h

/-- After the stripping loop no listed header reads as a non-empty value. -/
theorem truthy_stripHeaders (names : List String) :
    ∀ (o : Headers) (k : String), k ∈ names →
      truthy (objGet (stripHeaders names o) k) = false := by
  induction names with
  | nil => intro o k h; simp at h
  | cons n rest ih =>
    intro o k h
    simp only [stripHeaders]
    by_cases hk : k = n
    · subst hk
      apply truthy_stripHeaders_of_falsy
      split
      · rw [objGet_objDelete_self]; rfl
      · next hf => simpa using hf
    · have : k ∈ rest := by
        rcases List.mem_cons.1 h with h | h
        · exact absurd h hk
        · exact h
      exact ih _ k this


theorem keys_objSet_mem (o : Headers) (k v : String) (h : k ∈ o.map Prod.fst) :
    (objSet o k v).map Prod.fst = o.map Prod.fst := by
  induction o with
  | nil => simp at h
  | cons a tl ih =>
    obtain ⟨k0, v0⟩ := a
    by_cases h0 : k0 = k
    · simp [objSet, h0]
    · have : k ∈ tl.map Prod.fst := by
        rcases List.mem_cons.1 h with h | h
        · exact absurd h.symm h0
        · exact h
      simp [objSet, h0, ih this]

theorem normal_objSet (lower : String → String) (o : Headers) (k v : String)
    (ho : Normal lower o) (hk : lower k = k) (hp : k ≠ "__proto__") :
    Normal lower (objSet o k v) := by
  by_cases hmem : k ∈ o.map Prod.fst
  · unfold Normal keysDistinct
    rw [keys_objSet_mem o k v hmem]
    exact ho
  · rw [objSet_append_new o k v hmem]
    unfold Normal keysDistinct
    rw [List.map_append]
    refine ⟨?_, ?_⟩
    · rw [List.nodup_append]
      refine ⟨ho.1, by simp, ?_⟩
      intro x hx hx'
      simp only [List.map_cons, List.map_nil, List.mem_singleton] at hx'
      exact hmem (hx' ▸ hx)
    · intro x hx
      rcases List.mem_append.1 hx with hx | hx
      · exact ho.2 x hx
      · simp only [List.map_cons, List.map_nil, List.mem_singleton] at hx
        subst hx
        exact ⟨hk, hp⟩

theorem normal_assign (lower : String → String) (o : Headers) (k v : String)
    (ho : Normal lower o) (hk : lower k = k) : Normal lower (assign o k v) := by
  unfold assign
  split
  · exact ho
  · next hp => exact normal_objSet lower o k v ho hk hp

theorem normal_lowerKeys (lower : String → String) (hl : ∀ s, lower (lower s) = lower s)
    (l : Headers) : ∀ acc, Normal lower acc → Normal lower (lowerKeys lower l acc) := by
  induction l with
  | nil => intro acc h; exact h
  | cons a tl ih =>
    intro acc h
    obtain ⟨k, v⟩ := a
    exact ih _ (normal_assign lower acc (lower k) v h (hl k))

theorem normal_objDelete (lower : String → String) (o : Headers) (k : String)
    (ho : Normal lower o) : Normal lower (objDelete o k) := by
  have hk : (objDelete o k).map Prod.fst = (o.map Prod.fst).filter (fun x => x ≠ k) := by
    induction o with
    | nil => rfl
    | cons a tl ih =>
      obtain ⟨k0, v0⟩ := a
      have htl : Normal lower tl := by
        refine ⟨(List.nodup_cons.1 ho.1).2, fun x hx => ho.2 x (by simp [hx])⟩
      by_cases h0 : k0 = k
      · simp [objDelete, h0, ih htl]
      · simp [objDelete, h0, ih htl]
  unfold Normal keysDistinct
  rw [hk]
  exact ⟨ho.1.filter _, fun x hx => ho.2 x (List.mem_of_mem_filter hx)⟩

theorem normal_stripHeaders (lower : String → String) (names : List String) :
    ∀ o, Normal lower o → Normal lower (stripHeaders names o) := by
  induction names with
  | nil => intro o h; exact h
  | cons n rest ih =>
    intro o h
    simp only [stripHeaders]
    apply ih
    split
    · exact normal_objDelete lower o n h
    · exact h

theorem objGet_objSet_self (o : Headers) (k v : String) : objGet (objSet o k v) k = some v := by
  induction o with
  | nil => simp [objSet, objGet]
  | cons a tl ih =>
    obtain ⟨k0, v0⟩ := a
    by_cases h0 : k0 = k
    · simp [objSet, objGet, h0]
    · simp [objSet, objGet, h0, ih]

theorem objSet_same (o : Headers) (k v : String) (h : objGet o k = some v) :
    objSet o k v = o := by
  induction o with
  | nil => simp [objGet] at h
  | cons a tl ih =>
    obtain ⟨k0, v0⟩ := a
    by_cases h0 : k0 = k
    · simp only [objGet, h0, if_true, Option.some.injEq] at h
      simp [objSet, h0, h]
    · simp only [objGet, h0, if_false] at h
      simp [objSet, h0, ih h]

theorem lowerKeys_normal (lower : String → String) (l : Headers) :
    ∀ acc : Headers, ((acc ++ l).map Prod.fst).Nodup →
      (∀ k ∈ l.map Prod.fst, lower k = k ∧ k ≠ "__proto__") →
      lowerKeys lower l acc = acc ++ l := by
  induction l with
  | nil => intro acc _ _; simp [lowerKeys]
  | cons a tl ih =>
    intro acc hnd hk
    obtain ⟨k, v⟩ := a
    have hk0 := hk k (by simp)
    have hnew : k ∉ acc.map Prod.fst := by
      intro hmem
      rw [List.map_append, List.nodup_append] at hnd
      exact hnd.2.2 hmem (by simp)
    simp only [lowerKeys, assign, hk0.1, hk0.2, if_false]
    rw [objSet_append_new acc k v hnew, ih _ (by simpa using hnd)
      (fun x hx => hk x (by simp [hx]))]
    simp

theorem stripHeaders_of_falsy (names : List String) (o : Headers)
    (h : ∀ n ∈ names, truthy (objGet o n) = false) : stripHeaders names o = o := by
  induction names with
  | nil => rfl
  | cons n rest ih =>
    simp only [stripHeaders, h n (by simp), Bool.false_eq_true, if_false]
    exact ih (fun x hx => h x (by simp [hx]))


theorem objGet_stripHeaders_other (names : List String) (k : String) (hk : k ∉ names) :
    ∀ o : Headers, objGet (stripHeaders names o) k = objGet o k := by
  induction names with
  | nil => intro o; rfl
  | cons n rest ih =>
    intro o
    simp only [List.mem_cons, not_or] at hk
    simp only [stripHeaders]
    rw [ih hk.2]
    split
    · exact objGet_objDelete_other o k n hk.1
    · rfl

theorem asciiLowerCase_idempotent (s : String) :
    asciiLowerCase (asciiLowerCase s) = asciiLowerCase s := by
  have hn : ∀ n < 91, 65 ≤ n →
      ¬ (65 ≤ (Char.ofNat (n + 32)).toNat ∧ (Char.ofNat (n + 32)).toNat ≤ 90) := by
    decide
  unfold asciiLowerCase
  simp only [List.map_map]
  congr 1
  apply List.map_congr_left
  intro c _
  simp only [Function.comp]
  by_cases h : 65 ≤ c.toNat ∧ c.toNat ≤ 90
  · simp only [h, and_self, if_true]
    rw [if_neg (hn c.toNat (by omega) h.1)]
  · simp only [h, if_false]

/-- What the three loops of `reqHeaders` establish. -/
theorem reqHeaders_normal (toLowerCase : String → String)
    (hl : ∀ s, toLowerCase (toLowerCase s) = toLowerCase s)
    (hr : toLowerCase "referer" = "referer") (headers : Headers) :
    Normal toLowerCase (reqHeaders toLowerCase headers) ∧
    (∃ v, objGet (reqHeaders toLowerCase headers) "referer" = some v) ∧
    ∀ n ∈ stripReqHeaders, truthy (objGet (reqHeaders toLowerCase headers) n) = false := by
  have hA : Normal toLowerCase (lowerKeys toLowerCase headers []) :=
    normal_lowerKeys toLowerCase hl headers [] ⟨by simp [keysDistinct], by simp⟩
  unfold reqHeaders
  generalize lowerKeys toLowerCase headers [] = A at hA
  have hB : Normal toLowerCase (addDefaults defaultHeaders A) ∧
      ∃ v, objGet (addDefaults defaultHeaders A) "referer" = some v := by
    simp only [defaultHeaders, addDefaults]
    split
    · next ht =>
      refine ⟨hA, ?_⟩
      cases hg : objGet A "referer" with
      | none => rw [hg] at ht; simp [truthy] at ht
      | some v => exact ⟨v, rfl⟩
    · refine ⟨normal_assign toLowerCase A "referer" "" hA hr, "", ?_⟩
      simp only [assign]
      rw [if_neg (by decide)]
      exact objGet_objSet_self A "referer" ""
  obtain ⟨hBn, v, hBref⟩ := hB
  refine ⟨normal_stripHeaders toLowerCase _ _ hBn, ⟨v, ?_⟩, ?_⟩
  · rw [objGet_stripHeaders_other stripReqHeaders "referer" (by decide)]
    exact hBref
  · intro n hn
    exact truthy_stripHeaders stripReqHeaders _ n hn

/-- The three loops leave an object alone that already has what they establish. -/
theorem reqHeaders_fixed (toLowerCase : String → String) (o : Headers)
    (hn : Normal toLowerCase o) (href : ∃ v, objGet o "referer" = some v)
    (hs : ∀ n ∈ stripReqHeaders, truthy (objGet o n) = false) :
    reqHeaders toLowerCase o = o := by
  unfold reqHeaders
  rw [lowerKeys_normal toLowerCase o [] (by simpa using hn.1) hn.2]
  have hd : addDefaults defaultHeaders ([] ++ o) = o := by
    simp only [List.nil_append, defaultHeaders, addDefaults]
    split
    · rfl
    · next ht =>
      obtain ⟨v, hv⟩ := href
      rw [hv] at ht
      have : v = "" := by simpa [truthy] using ht
      subst this
      simp only [assign]
      rw [if_neg (by decide)]
      exact objSet_same o "referer" "" hv
  rw [hd]
  exact stripHeaders_of_falsy stripReqHeaders o hs


/-! ## Lemmas: the command/event channel -/

theorem deliver_logUnhandledEvent (ws : Chan) (msg : Msg)
    (h : ws.onmessage = .logUnhandledEvent) : deliver ws msg = (ws, none) := by
  simp [deliver, h]

theorem deliverAll_logUnhandledEvent (msgs : List Msg) :
    ∀ ws : Chan, ws.onmessage = .logUnhandledEvent → deliverAll ws msgs = (ws, []) := by
  induction msgs with
  | nil => intro ws _; rfl
  | cons m rest ih =>
    intro ws h
    simp [deliverAll, deliver_logUnhandledEvent ws m h, ih ws h]

theorem deliver_awaitReply_other (ws : Chan) (msg : Msg) (id : Nat) (method : String)
    (timeout : Nat) (h : ws.onmessage = .awaitReply id method timeout)
    (hid : msg.id? ≠ some id) : deliver ws msg = (ws, none) := by
  simp [deliver, h, hid]

theorem deliverAll_awaitReply_others (id : Nat) (method : String) (timeout : Nat)
    (msgs : List Msg) :
    ∀ ws : Chan, ws.onmessage = .awaitReply id method timeout →
      (∀ x ∈ msgs, x.id? ≠ some id) → deliverAll ws msgs = (ws, []) := by
  induction msgs with
  | nil => intro ws _ _; rfl
  | cons m rest ih =>
    intro ws h hid
    simp [deliverAll, deliver_awaitReply_other ws m id method timeout h (hid m (by simp)),
      ih ws h (fun x hx => hid x (by simp [hx]))]

theorem deliverAll_append (a b : List Msg) :
    ∀ ws : Chan, deliverAll ws (a ++ b) =
      ((deliverAll (deliverAll ws a).1 b).1, (deliverAll ws a).2 ++ (deliverAll (deliverAll ws a).1 b).2) := by
  induction a with
  | nil => intro ws; simp [deliverAll]
  | cons m rest ih =>
    intro ws
    simp [deliverAll, ih]

/-- The reply handler on an error reply with the command's id. -/
theorem deliver_awaitReply_error (ws : Chan) (id : Nat) (code : Int) (message method : String)
    (timeout : Nat) (h : ws.onmessage = .awaitReply id method timeout) :
    deliver ws (.error id code message) = (resetHandler ws timeout, some (timeout,
      .rejected (method ++ " error: " ++ intText code ++ ": " ++ message))) := by
  simp [deliver, h, Msg.id?]

/-- The reply handler on a result with the command's id. -/
theorem deliver_awaitReply_result (ws : Chan) (id : Nat) (result : CdpResult) (method : String)
    (timeout : Nat) (h : ws.onmessage = .awaitReply id method timeout) :
    deliver ws (.result id result) = (resetHandler ws timeout, some (timeout,
      if truthy result.errorText then
        .rejected (method ++ " error: " ++ result.errorText.getD "")
      else .resolved (.result result))) := by
  simp only [deliver, h, Msg.id?, if_true]
  split <;> rfl

/-- The reply handler settles on a message with the command's id. -/
theorem deliver_awaitReply_match (ws : Chan) (msg : Msg) (id : Nat) (method : String)
    (timeout : Nat) (h : ws.onmessage = .awaitReply id method timeout)
    (hid : msg.id? = some id) :
    ∃ o, deliver ws msg = (resetHandler ws timeout, some (timeout, o)) := by
  cases msg with
  | result i r =>
    simp only [Msg.id?, Option.some.injEq] at hid
    subst hid
    exact ⟨_, deliver_awaitReply_result ws i r method timeout h⟩
  | error i c m =>
    simp only [Msg.id?, Option.some.injEq] at hid
    subst hid
    exact ⟨_, deliver_awaitReply_error ws i c m method timeout h⟩
  | event m p => simp [Msg.id?] at hid

theorem sendCmdCDP_open (ws : Chan) (method : String) (params : Json)
    (sessionId : Option String) (hopen : ws.isOpen = true) :
    sendCmdCDP ws method params false sessionId =
      ({ ws with
          sent := ws.sent ++ [{ id := ws.cmdId, method := method, params := params,
                                sessionId := if truthy sessionId then sessionId else none }],
          cmdId := ws.cmdId + 1,
          timers := ws.timers ++
            [{ handle := ws.nextTimer, ms := CDP_TIMEOUT_MS, reason := method ++ " error: timed out" }],
          nextTimer := ws.nextTimer + 1,
          onmessage := .awaitReply ws.cmdId method ws.nextTimer },
        .pending ws.nextTimer) := by
  simp [sendCmdCDP, hopen]


theorem replySettlements_split (ws : Chan) (method : String) (params : Json)
    (sessionId : Option String) (pre post : List Msg) (msg : Msg)
    (hopen : ws.isOpen = true)
    (hpre : ∀ x ∈ pre, x.id? ≠ some ws.cmdId) (hmsg : msg.id? = some ws.cmdId) :
    replySettlements ws method params sessionId (pre ++ msg :: post) =
      (deliver (sendCmdCDP ws method params false sessionId).1 msg).2.toList ∧
    replyHandler ws method params sessionId (pre ++ msg :: post) = .logUnhandledEvent := by
  have hh : (sendCmdCDP ws method params false sessionId).1.onmessage =
      .awaitReply ws.cmdId method ws.nextTimer := by
    rw [sendCmdCDP_open ws method params sessionId hopen]
  unfold replySettlements replyHandler
  generalize (sendCmdCDP ws method params false sessionId).1 = ws1 at hh
  rw [deliverAll_append, deliverAll_awaitReply_others _ _ _ pre ws1 hh hpre]
  simp only [deliverAll, List.nil_append]
  obtain ⟨o, hm⟩ := deliver_awaitReply_match ws1 msg _ _ _ hh hmsg
  rw [hm]
  simp only [deliverAll_logUnhandledEvent post (resetHandler ws1 ws.nextTimer) rfl,
    List.append_nil]
  exact ⟨trivial, rfl⟩

theorem idsIncreasing_send (ws ws1 : Chan) (cmd : Cmd) (h : IdsIncreasing ws)
    (hid : cmd.id = ws.cmdId) (hs : ws1.sent = ws.sent ++ [cmd])
    (hc : ws1.cmdId = ws.cmdId + 1) : IdsIncreasing ws1 := by
  unfold IdsIncreasing
  rw [hs, hc]
  refine ⟨?_, ?_⟩
  · simp only [List.map_append, List.map_cons, List.map_nil]
    rw [List.pairwise_append]
    refine ⟨h.1, by simp, ?_⟩
    intro a ha b hb
    simp only [List.mem_singleton] at hb
    simp only [List.mem_map] at ha
    obtain ⟨c, hc, rfl⟩ := ha
    rw [hb, hid]
    exact h.2 c hc
  · intro c hc
    simp only [List.mem_append, List.mem_singleton] at hc
    rcases hc with hc | hc
    · exact Nat.lt_succ_of_lt (h.2 c hc)
    · rw [hc, hid]; exact Nat.lt_succ_self _

theorem idsIncreasing_step (ws : Chan) (a : Action) (h : IdsIncreasing ws) :
    IdsIncreasing (step ws a) := by
  cases a with
  | call method params ignoreRes sessionId =>
    simp only [step, sendCmdCDP]
    by_cases hopen : ws.isOpen = false
    · simp only [hopen, if_true]; exact h
    · simp only [hopen, if_false]
      cases ignoreRes with
      | true => exact idsIncreasing_send ws _ _ h rfl rfl rfl
      | false => exact idsIncreasing_send ws _ _ h rfl rfl rfl
  | wait method timeout_ms => exact h
  | message msg =>
    have hd : (deliver ws msg).1.sent = ws.sent ∧ (deliver ws msg).1.cmdId = ws.cmdId := by
      unfold deliver
      repeat' split
      all_goals exact ⟨rfl, rfl⟩
    simp only [step, IdsIncreasing, hd.1, hd.2]
    exact h
  | timer timeout =>
    have hd : (fireTimer ws timeout).1.sent = ws.sent ∧
        (fireTimer ws timeout).1.cmdId = ws.cmdId := by
      unfold fireTimer
      split <;> exact ⟨rfl, rfl⟩
    simp only [step, IdsIncreasing, hd.1, hd.2]
    exact h
  | readyState isOpen => exact h

theorem idsIncreasing_run (actions : List Action) :
    ∀ ws : Chan, IdsIncreasing ws → IdsIncreasing (run ws actions) := by
  induction actions with
  | nil => intro ws h; exact h
  | cons a rest ih =>
    intro ws h
    exact ih _ (idsIncreasing_step ws a h)


/-! ## Lemmas: the operator session -/

theorem errResDetails_eq :
    errResDetails = (Details.response 400 [("content-type", "text/plain")] []).toJson := rfl

theorem textEncode_append (a b : List Char) : textEncode (a ++ b) = textEncode a ++ textEncode b := by
  induction a with
  | nil => rfl
  | cons c cs ih => simp [textEncode, ih]

theorem errBody_ne_nil (e : String) : textEncode ("app.js: " ++ e ++ "\n").data ≠ [] := by
  rw [String.data_append, String.data_append, List.append_assoc, textEncode_append]
  have : textEncode "app.js: ".data = [97, 112, 112, 46, 106, 115, 58, 32] := by decide
  rw [this]
  simp

/-- The error payload decodes to the fixed details object and the text of the
error. -/
theorem processReqPayload_errResPayload (e : String) :
    processReqPayload (errResPayload e) =
      .ok (errResDetails, some (textEncode ("app.js: " ++ e ++ "\n").data)) := by
  unfold errResPayload
  apply processReqPayload_buildResPayload
  · rw [errResDetails_eq]
    apply cleanText_details
    refine ⟨?_, ?_⟩
    · intro kv hkv
      simp only [List.mem_singleton] at hkv
      subst hkv
      exact ⟨by decide, by decide⟩
    · intro kv hkv
      simp at hkv
  · rw [errResDetails_eq]
    exact jsonParse_details _ (by simp [Details.wellFormed, keysDistinct])
  · intro h
    exact errBody_ne_nil e (Option.some.inj h)

theorem c2Catch_frames (st : C2) (e : String) (hws : st.wsC2 = true) :
    (c2Catch st e).frames = st.frames ++ [errResPayload e] := by
  simp [c2Catch, c2Send, hws]

/-- The handler run in one step is its first part followed, when it was
suspended, by its second part with nothing in between. -/
theorem c2OnMessage_eq_receive_resume (st : C2) (payload : Bytes)
    (res : Except String (Json × Option Bytes)) :
    c2OnMessage st payload res =
      if (c2Receive st payload).2 then c2Resume (c2Receive st payload).1 res
      else (c2Receive st payload).1 := by
  unfold c2OnMessage c2Receive c2Resume
  cases processReqPayload payload with
  | error e => rfl
  | ok p => cases res <;> rfl

/-! ## Lemmas: the continue step and the lifecycle -/

theorem deliver_awaitEvent_other (ws : Chan) (msg : Msg) (method : String) (timeout : Nat)
    (h : ws.onmessage = .awaitEvent method timeout)
    (hm : ∀ params, msg ≠ .event method params) : deliver ws msg = (ws, none) := by
  cases msg with
  | result i r => simp [deliver, h]
  | error i c m => simp [deliver, h]
  | event m p =>
    have hne : ¬ m = method := fun e => hm p (by rw [e])
    simp [deliver, h, hne]

theorem deliverAll_awaitEvent_others (method : String) (timeout : Nat) (msgs : List Msg) :
    ∀ ws : Chan, ws.onmessage = .awaitEvent method timeout →
      (∀ m ∈ msgs, ∀ params, m ≠ .event method params) → deliverAll ws msgs = (ws, []) := by
  induction msgs with
  | nil => intro ws _ _; rfl
  | cons m rest ih =>
    intro ws h hm
    simp [deliverAll, deliver_awaitEvent_other ws m method timeout h (hm m (by simp)),
      ih ws h (fun x hx => hm x (by simp [hx]))]

theorem deliver_awaitEvent_match (ws : Chan) (method : String) (timeout : Nat) (params : Json)
    (h : ws.onmessage = .awaitEvent method timeout) :
    deliver ws (.event method params) =
      (resetHandler ws timeout, some (timeout, .resolved (.params params))) := by
  simp [deliver, h]

/-- What a fire-and-forget call does on an open socket. -/
theorem sendCmdCDP_ignoreRes_open (ws : Chan) (method : String) (params : Json)
    (sessionId : Option String) (hopen : ws.isOpen = true) :
    sendCmdCDP ws method params true sessionId =
      ({ ws with
          sent := ws.sent ++ [{ id := ws.cmdId, method := method, params := params,
                                sessionId := if truthy sessionId then sessionId else none }],
          cmdId := ws.cmdId + 1 },
        .settled (.resolved .undefined)) := by
  simp [sendCmdCDP, hopen]

/-- The main variable `wsC2` is never assigned an operator connection, and so
`main` never closes one. -/
theorem lifecycle_wsC2_undefined (events : List LifecycleEvent) :
    ∀ st : Lifecycle, st.wsC2 = none ∧ st.closed = [] →
      (lifecycleRun st events).wsC2 = none ∧ (lifecycleRun st events).closed = [] := by
  induction events with
  | nil => intro st h; exact h
  | cons e rest ih =>
    intro st h
    apply ih
    cases e with
    | onopen => exact h
    | attached sid => exact ⟨rfl, h.2⟩
    | failed e => exact h
    | onclose => simp [lifecycleStep, h.1, h.2]
    | operator i ev => exact h
    | reconnectC2 => exact h
    | restart => exact ⟨rfl, h.2⟩

/-! ## Claims about the framing codec -/

/-- C1, as amended. Framing round trip for ASCII details: for every details
object (a request `{method, url, headers}` or a response `{code, headers,
cookies}`) whose strings are all ASCII, with any header mapping (keys pairwise
distinct, as in every object), and for every body that is absent or a
non-empty byte sequence, `processReqPayload (buildResPayload d body)` succeeds
and returns exactly `(d, body)`. -/
theorem processReqPayload_buildResPayload_ascii (d : Details) (body : Option Bytes)
    (hd : d.wellFormed) (ha : d.ascii) (hbody : body ≠ some []) :
    processReqPayload (buildResPayload d.toJson body) = .ok (d.toJson, body) :=
  processReqPayload_buildResPayload d.toJson body (cleanText_details d ha)
    (jsonParse_details d hd) hbody

/-- Witness for C1: a request with two headers, one of them empty-valued, and a
body that itself contains a zero byte. -/
theorem processReqPayload_buildResPayload_ascii_witness :
    processReqPayload (buildResPayload
        (Details.request "POST" "http://10.0.0.1/a?b=\"c\"" [("Accept", "*/*"), ("x-empty", "")]).toJson
        (some [104, 0, 105])) =
      .ok ((Details.request "POST" "http://10.0.0.1/a?b=\"c\""
        [("Accept", "*/*"), ("x-empty", "")]).toJson, some [104, 0, 105]) :=
  processReqPayload_buildResPayload_ascii _ _ (by decide) (by decide) (by simp)

/-- Counterexample to C1 as stated: a response whose header value holds the
non-ASCII character U+00E9 is encoded as two UTF-8 bytes by `buildResPayload`
and read back as two characters by `processReqPayload`, so the round trip
returns another details object. -/
theorem processReqPayload_buildResPayload_non_ascii :
    (Details.response 200 [("x-name", "é")] []).wellFormed ∧
    processReqPayload (buildResPayload (Details.response 200 [("x-name", "é")] []).toJson none) =
      .ok ((Details.response 200 [("x-name", "Ã©")] []).toJson, none) ∧
    processReqPayload (buildResPayload (Details.response 200 [("x-name", "é")] []).toJson none) ≠
      .ok ((Details.response 200 [("x-name", "é")] []).toJson, none) := by
  have h : processReqPayload
      (buildResPayload (Details.response 200 [("x-name", "é")] []).toJson none) =
      .ok ((Details.response 200 [("x-name", "Ã©")] []).toJson, none) := by rfl
  refine ⟨by decide, h, ?_⟩
  rw [h]
  simp [Details.toJson, headersJson]

/-- C2. `processReqPayload` fails with the no-terminator error exactly when the
buffer has no zero byte, in particular on the empty buffer; when there is a
zero byte the scan stops at the first one: the text before it goes to
`JSON.parse` and the bytes after it are the body. -/
theorem processReqPayload_noTerminator_iff (reqPayload : Bytes) :
    (processReqPayload reqPayload = .error noTerminator ↔ 0 ∉ reqPayload) ∧
    processReqPayload [] = .error noTerminator ∧
    (∀ pre post : Bytes, reqPayload = pre ++ 0 :: post → 0 ∉ pre →
      processReqPayload reqPayload =
        match jsonParse (pre.map Char.ofNat) with
        | none => .error invalidJson
        | some reqDetails =>
          .ok (reqDetails, if post.length = 0 then none else some post)) := by
  refine ⟨⟨?_, ?_⟩, rfl, ?_⟩
  · intro herr hmem
    obtain ⟨pre, post, rfl, hpre⟩ := split_at_first_zero reqPayload hmem
    rw [processReqPayload_split pre post hpre] at herr
    cases hj : jsonParse (pre.map Char.ofNat) with
    | none =>
      rw [hj] at herr
      have : invalidJson = noTerminator := by simpa using herr
      exact absurd this (by decide)
    | some v =>
      rw [hj] at herr
      simp at herr
  · intro hno
    unfold processReqPayload
    rw [scanDetails_no_zero reqPayload (fun b hb e => hno (e ▸ hb)) []]
  · intro pre post he hpre
    rw [he]
    exact processReqPayload_split pre post (fun b hb e => hpre (e ▸ hb))
/-! ## Claims about the request executor -/

/-- C3. The text-body check of `sendHttpReq` does not reject a body with a byte
of 0x80 or more: in the Encoding Standard the label `ascii` names windows-1252,
whose fatal decoder has no failing byte, so the body `[0xE9]` is accepted and
forwarded as the one-character text U+00E9; no body of bytes makes the
operation fail with the text-body error. -/
theorem reqParams_high_byte_accepted :
    reqParams asciiLowerCase "interception-1" "POST" "http://10.0.0.1/" [] (some [0xE9]) =
      .ok { requestId := "interception-1", method := "POST", url := "http://10.0.0.1/",
            headers := [("referer", "")], postData := some "é" } ∧
    ∀ (toLowerCase : String → String) (requestId method url : String) (headers : Headers)
      (body : Bytes), (∀ b ∈ body, b < 256) →
      reqParams toLowerCase requestId method url headers (some body) ≠ .error bodyMustBeText := by
  refine ⟨by rfl, ?_⟩
  intro lower rid m u hs body hb
  obtain ⟨text, ht⟩ := textDecodeAscii_isSome body hb
  simp [reqParams, ht]

/-- C4. A hop header whose value is the empty string is not stripped: the guard
`if (reqHeaders[header])` reads the empty string as false, so `Host: ""` is
sent on as `host`. What the stripping loop does achieve is that none of the
four keys is left with a non-empty value. -/
theorem reqHeaders_keeps_empty_host :
    reqHeaders asciiLowerCase [("Host", "")] = [("host", ""), ("referer", "")] ∧
    "host" ∈ (reqHeaders asciiLowerCase [("Host", "")]).map Prod.fst ∧
    ∀ (toLowerCase : String → String) (headers : Headers) (name : String),
      name ∈ stripReqHeaders →
      truthy (objGet (reqHeaders toLowerCase headers) name) = false := by
  refine ⟨by decide, by decide, ?_⟩
  intro lower headers name hn
  exact truthy_stripHeaders stripReqHeaders _ name hn

/-- C5. Request-side header normalisation (keys to lower case, a blank
`referer` added when missing, hop headers stripped) is idempotent, for every
header mapping and every case mapping that, like `toLowerCase`, is idempotent
and leaves `referer` as it is. -/
theorem reqHeaders_idempotent (toLowerCase : String → String)
    (hl : ∀ s, toLowerCase (toLowerCase s) = toLowerCase s)
    (hr : toLowerCase "referer" = "referer") (headers : Headers) :
    reqHeaders toLowerCase (reqHeaders toLowerCase headers) = reqHeaders toLowerCase headers := by
  obtain ⟨hn, href, hs⟩ := reqHeaders_normal toLowerCase hl hr headers
  exact reqHeaders_fixed toLowerCase _ hn href hs

/-- Witness for C5, with the ASCII case mapping and a mapping that has mixed
case, a duplicate after lowering, a hop header and an empty-valued hop header. -/
theorem reqHeaders_idempotent_witness :
    reqHeaders asciiLowerCase (reqHeaders asciiLowerCase
        [("Accept", "*/*"), ("HOST", "a.example"), ("accept", "text/html"),
         ("Content-Length", "")]) =
      reqHeaders asciiLowerCase
        [("Accept", "*/*"), ("HOST", "a.example"), ("accept", "text/html"),
         ("Content-Length", "")] :=
  reqHeaders_idempotent asciiLowerCase asciiLowerCase_idempotent (by decide) _

/-- C6. Cookie extraction cuts a value at its first `=`: each segment is split
at every `=` and only the second piece is kept, so `a=b=c` yields `{a: "b"}`
where the claim has `{a: "b=c"}`. The rest of the claim holds: no `Cookie` key
gives the empty mapping and `a=1; b=2` gives `{a: "1", b: "2"}`. -/
theorem resCookies_cuts_value_at_equals :
    resCookies [("Cookie", "a=b=c")] = .ok [("a", "b")] ∧
    resCookies [("Cookie", "token=YWJj==; b=2")] = .ok [("token", "YWJj"), ("b", "2")] ∧
    resCookies [("Cookie", "a=1; b=2")] = .ok [("a", "1"), ("b", "2")] ∧
    ∀ requestHeaders : Headers, objGet requestHeaders "Cookie" = none →
      resCookies requestHeaders = .ok [] := by
  refine ⟨by rfl, by rfl, by rfl, ?_⟩
  intro hs h
  simp [resCookies, h]

/-! ## Claims about the command/event channel -/

/-- C7, as amended. Reply correlation in `sendCmdCDP` with a response expected:
for a command sent with id `n` on an open channel and every sequence of
inbound messages, the messages before the first one with id `n` (events, or
replies with another id) settle nothing and leave the reply handler installed;
the call settles exactly once, on the first message with id `n`, and later
messages settle nothing. The outcome is the failure `<method> error: <code>:
<message>` for an error reply, the failure `<method> error: <errorText>` when
the result carries a non-empty `errorText`, and otherwise (no `errorText`, or
an empty one) success with the result payload. -/
theorem sendCmdCDP_reply_correlation (ws : Chan) (method : String) (params : Json)
    (sessionId : Option String) (pre post : List Msg) (msg : Msg)
    (hopen : ws.isOpen = true)
    (hpre : ∀ x ∈ pre, x.id? ≠ some ws.cmdId) (hmsg : msg.id? = some ws.cmdId) :
    (sendCmdCDP ws method params false sessionId).2 = .pending ws.nextTimer ∧
    replySettlements ws method params sessionId pre = [] ∧
    replyHandler ws method params sessionId pre = .awaitReply ws.cmdId method ws.nextTimer ∧
    replyHandler ws method params sessionId (pre ++ msg :: post) = .logUnhandledEvent ∧
    (∀ id code message, msg = .error id code message →
      replySettlements ws method params sessionId (pre ++ msg :: post) =
        [(ws.nextTimer, .rejected (method ++ " error: " ++ intText code ++ ": " ++ message))]) ∧
    (∀ id result text, msg = .result id result → result.errorText = some text → text ≠ "" →
      replySettlements ws method params sessionId (pre ++ msg :: post) =
        [(ws.nextTimer, .rejected (method ++ " error: " ++ text))]) ∧
    (∀ id result, msg = .result id result →
      (result.errorText = none ∨ result.errorText = some "") →
      replySettlements ws method params sessionId (pre ++ msg :: post) =
        [(ws.nextTimer, .resolved (.result result))]) := by
  have hsend := sendCmdCDP_open ws method params sessionId hopen
  have hh : (sendCmdCDP ws method params false sessionId).1.onmessage =
      .awaitReply ws.cmdId method ws.nextTimer := by rw [hsend]
  have hsplit := replySettlements_split ws method params sessionId pre post msg hopen hpre hmsg
  have hfront := deliverAll_awaitReply_others _ _ _ pre _ hh hpre
  refine ⟨by rw [hsend], ?_, ?_, hsplit.2, ?_, ?_, ?_⟩
  · unfold replySettlements; rw [hfront]
  · unfold replyHandler; rw [hfront]; exact hh
  · intro id code message he
    subst he
    simp only [Msg.id?, Option.some.injEq] at hmsg
    subst hmsg
    rw [hsplit.1, deliver_awaitReply_error _ _ _ _ _ _ hh]
    rfl
  · intro id result text he ht hne
    subst he
    simp only [Msg.id?, Option.some.injEq] at hmsg
    subst hmsg
    rw [hsplit.1, deliver_awaitReply_result _ _ _ _ _ hh]
    simp [truthy, ht, hne]
  · intro id result he ht
    subst he
    simp only [Msg.id?, Option.some.injEq] at hmsg
    subst hmsg
    rw [hsplit.1, deliver_awaitReply_result _ _ _ _ _ hh]
    rcases ht with ht | ht <;> simp [truthy, ht]

/-- Witness for C7: on the open channel of a fresh program the command
`Fetch.getResponseBody` has id 1; an event and a reply with id 7 come first,
then the reply with id 1, then a second reply with id 1. -/
theorem sendCmdCDP_reply_correlation_witness :
    replySettlements { initialChan with isOpen := true } "Fetch.getResponseBody" .null
        (some "session")
        ([.event "Fetch.requestPaused" .null, .result 7 ⟨none, []⟩] ++
          .result 1 ⟨none, [("body", .str "ok")]⟩ :: [.result 1 ⟨none, []⟩]) =
      [(1, .resolved (.result ⟨none, [("body", .str "ok")]⟩))] :=
  (sendCmdCDP_reply_correlation { initialChan with isOpen := true } "Fetch.getResponseBody"
    .null (some "session") [.event "Fetch.requestPaused" .null, .result 7 ⟨none, []⟩]
    [.result 1 ⟨none, []⟩] (.result 1 ⟨none, [("body", .str "ok")]⟩) rfl
    (by
      intro x hx
      simp only [List.mem_cons, List.mem_singleton, List.not_mem_nil, or_false] at hx
      rcases hx with rfl | rfl <;> simp [Msg.id?, initialChan])
    rfl).2.2.2.2.2.2 1 _ rfl (Or.inl rfl)

/-- Counterexample to C7 as stated: a reply whose result carries an empty
`errorText` resolves the call with the result instead of failing it. -/
theorem sendCmdCDP_empty_errorText_resolves :
    replySettlements { initialChan with isOpen := true } "Page.navigate" .null none
        [.result 1 ⟨some "", []⟩] =
      [(1, .resolved (.result ⟨some "", []⟩))] ∧
    replySettlements { initialChan with isOpen := true } "Page.navigate" .null none
        [.result 1 ⟨some "", []⟩] ≠
      [(1, .rejected ("Page.navigate" ++ " error: " ++ ""))] := by
  have h : replySettlements { initialChan with isOpen := true } "Page.navigate" .null none
      [.result 1 ⟨some "", []⟩] = [(1, .resolved (.result ⟨some "", []⟩))] := by rfl
  refine ⟨h, ?_⟩
  rw [h]
  simp

/-- C8. Command identifiers are fresh and strictly increasing: after any
sequence of calls of `sendCmdCDP` (with or without a response expected, on an
open or a closed socket), interleaved with event waits, inbound messages,
timers firing and changes of the ready state, the ids of the commands sent are
strictly increasing, so no two are equal; a call on an open socket sends one
command, with the current `cmdId`; a call on a socket that is not open fails
with the closed-socket error and sends nothing. -/
theorem cmdId_strictly_increasing (actions : List Action) :
    ((run initialChan actions).sent.map Cmd.id).Pairwise (· < ·) ∧
    ((run initialChan actions).sent.map Cmd.id).Nodup ∧
    (∀ (ws : Chan) (method : String) (params : Json) (ignoreRes : Bool)
        (sessionId : Option String), ws.isOpen = true →
      (sendCmdCDP ws method params ignoreRes sessionId).1.sent.map Cmd.id =
        ws.sent.map Cmd.id ++ [ws.cmdId] ∧
      (sendCmdCDP ws method params ignoreRes sessionId).1.cmdId = ws.cmdId + 1) ∧
    (∀ (ws : Chan) (method : String) (params : Json) (ignoreRes : Bool)
        (sessionId : Option String), ws.isOpen = false →
      sendCmdCDP ws method params ignoreRes sessionId =
        (ws, .settled (.rejected closedText))) := by
  have hinit : IdsIncreasing initialChan := ⟨by simp [initialChan], by simp [initialChan]⟩
  have h := idsIncreasing_run actions initialChan hinit
  refine ⟨h.1, ?_, ?_, ?_⟩
  · exact h.1.imp (fun hlt => Nat.ne_of_lt hlt)
  · intro ws method params ignoreRes sessionId hopen
    cases ignoreRes <;> simp [sendCmdCDP, hopen]
  · intro ws method params ignoreRes sessionId hclosed
    simp [sendCmdCDP, hclosed]

/-! ## Claims about the operator session -/

/-- C9, as amended. Error framing of the operator session while the operator
socket is held: for every inbound operator message whose decode
(`processReqPayload`) or execution (`sendHttpReq`) fails with an error `e`,
if the variable `wsC2` still holds the socket when the failure is caught, the
handler sends exactly one frame, and that frame decodes under the framing
codec to the details object `{code: 400, headers: {"content-type":
"text/plain"}, cookies: {}}` and to a body that is the UTF-8 encoding of the
text `app.js: ` followed by `e` and a newline. This is stated of the handler
run in one step on a connection that holds its socket, and of the handler
resumed after `await sendHttpReq` in any later state that still holds it. -/
theorem c2OnMessage_error_frame (st : C2) (payload : Bytes)
    (res : Except String (Json × Option Bytes)) (e : String)
    (hws : st.wsC2 = true)
    (hfail : processReqPayload payload = .error e ∨
      ((∃ reqDetails reqBody, processReqPayload payload = .ok (reqDetails, reqBody)) ∧
        res = .error e)) :
    ∃ frame : Bytes,
      (c2Step st (.onmessage payload res)).frames = st.frames ++ [frame] ∧
      processReqPayload frame =
        .ok (Json.obj [("code", .num 400),
              ("headers", .obj [("content-type", .str "text/plain")]), ("cookies", .obj [])],
            some (textEncode ("app.js: " ++ e ++ "\n").data)) ∧
      ∀ later : C2, later.wsC2 = true →
        (c2Resume later (.error e)).frames = later.frames ++ [frame] := by
  refine ⟨errResPayload e, ?_, processReqPayload_errResPayload e, ?_⟩
  · simp only [c2Step, c2OnMessage]
    rcases hfail with h | ⟨⟨d, b, h⟩, hres⟩
    · rw [h]
      exact c2Catch_frames st e hws
    · rw [h, hres]
      exact c2Catch_frames _ e hws
  · intro later hlater
    exact c2Catch_frames later e hlater

/-- Witness for C9: a frame without terminator, and a well-formed request whose
execution fails with a network error. -/
theorem c2OnMessage_error_frame_witness :
    (∃ frame : Bytes,
      (c2Step initialC2 (.onmessage [123, 125] (.error "unused"))).frames = [] ++ [frame] ∧
      processReqPayload frame =
        .ok (Json.obj [("code", .num 400),
              ("headers", .obj [("content-type", .str "text/plain")]), ("cookies", .obj [])],
            some (textEncode ("app.js: " ++ noTerminator ++ "\n").data))) ∧
    (∃ frame : Bytes,
      (c2Step initialC2 (.onmessage [123, 125, 0] (.error "network error:unknown"))).frames =
        [] ++ [frame] ∧
      processReqPayload frame =
        .ok (Json.obj [("code", .num 400),
              ("headers", .obj [("content-type", .str "text/plain")]), ("cookies", .obj [])],
            some (textEncode ("app.js: " ++ "network error:unknown" ++ "\n").data)) ∧
      (c2Resume (c2Receive initialC2 [123, 125, 0]).1 (.error "network error:unknown")).frames =
        [] ++ [frame]) :=
  ⟨(c2OnMessage_error_frame initialC2 [123, 125] (.error "unused") noTerminator rfl
      (Or.inl (by rfl))).imp fun _ h => ⟨h.1, h.2.1⟩,
   (c2OnMessage_error_frame initialC2 [123, 125, 0] (.error "network error:unknown")
      "network error:unknown" rfl (Or.inr ⟨⟨Json.obj [], none, by rfl⟩, rfl⟩)).imp
      fun _ h => ⟨h.1, h.2.1, h.2.2 (c2Receive initialC2 [123, 125, 0]).1 (by rfl)⟩⟩

/-- Counterexample to C9 as stated: the operator socket closes while the
handler waits for `sendHttpReq`. The frame of the end-to-end scenario arrives
on an open connection with interception enabled, is decoded and handed over;
`wsC2.onclose` runs and sets `wsC2` to `undefined`; the execution then fails,
and in the `catch` block `wsC2.send` throws, so no frame is sent for this
message. The handler run in one step on a connection that has lost its socket
does the same. -/
theorem c2_no_error_frame_after_close :
    (c2Run initialC2 [.onopen, .enableSettled (.ok ())]).wsC2 = true ∧
    (c2Receive (c2Run initialC2 [.onopen, .enableSettled (.ok ())])
      (buildResPayload (Details.request "GET" "http://example.local/health" []).toJson
        none)).2 = true ∧
    (c2Resume
      (c2Step
        (c2Receive (c2Run initialC2 [.onopen, .enableSettled (.ok ())])
          (buildResPayload (Details.request "GET" "http://example.local/health" []).toJson
            none)).1
        (.onclose true))
      (.error "Fetch.requestPaused error: request timed out")).frames = [] ∧
    (¬ ∃ frame : Bytes,
      (c2Resume
        (c2Step
          (c2Receive (c2Run initialC2 [.onopen, .enableSettled (.ok ())])
            (buildResPayload (Details.request "GET" "http://example.local/health" []).toJson
              none)).1
          (.onclose true))
        (.error "Fetch.requestPaused error: request timed out")).frames =
        (c2Run initialC2 [.onopen, .enableSettled (.ok ())]).frames ++ [frame]) ∧
    (c2Step (c2Run initialC2 [.onopen, .enableSettled (.ok ()), .onclose true])
      (.onmessage
        (buildResPayload (Details.request "GET" "http://example.local/health" []).toJson none)
        (.error "Fetch.requestPaused error: request timed out"))).frames = [] := by
  have h : (c2Resume
      (c2Step
        (c2Receive (c2Run initialC2 [.onopen, .enableSettled (.ok ())])
          (buildResPayload (Details.request "GET" "http://example.local/health" []).toJson
            none)).1
        (.onclose true))
      (.error "Fetch.requestPaused error: request timed out")).frames = [] := by rfl
  refine ⟨by rfl, by rfl, h, ?_, by rfl⟩
  rw [h]
  rintro ⟨frame, hf⟩
  simp at hf

/-- C10. The operator session hands a request to `sendHttpReq` whatever the
value of `fetchEnabled`: after the socket opens and before the `Fetch.enable`
command has settled, the framed request of the end-to-end scenario is decoded
and executed with `fetchEnabled` still `false`, so it is not true that every
request handed over in a reachable state found `fetchEnabled` true. -/
theorem c2_executes_before_fetch_enabled :
    (c2Run initialC2
        [.onopen,
         .onmessage
          (buildResPayload (Details.request "GET" "http://example.local/health" []).toJson none)
          (.error "Fetch.requestPaused error: request timed out")]).handed =
      [((Details.request "GET" "http://example.local/health" []).toJson, none, some false)] ∧
    ¬ ∀ events : List C2Event, ∀ h ∈ (c2Run initialC2 events).handed, h.2.2 = some true := by
  have hrun : (c2Run initialC2
        [.onopen,
         .onmessage
          (buildResPayload (Details.request "GET" "http://example.local/health" []).toJson none)
          (.error "Fetch.requestPaused error: request timed out")]).handed =
      [((Details.request "GET" "http://example.local/health" []).toJson, none, some false)] := by
    rfl
  refine ⟨hrun, ?_⟩
  intro hall
  have := hall _ _ (by rw [hrun]; exact List.mem_singleton.2 rfl)
  simp at this

/-! ## Claims about the lifecycle and the continue step -/

/-- C11. The close handler of the debugging socket does not close the operator
channel: `main` stores the value of the call `connectC2(wsCDP, sessionId)` in
its variable `wsC2`, and `connectC2` has no `return` statement, so the variable
is always `undefined` and the guarded `wsC2.close()` is never reached. After
the target is attached and the operator connection is open with interception
enabled, the handler marks the debugging connection disconnected and schedules
`main` after `WS_RECONNECT_MS`, and the operator connection is left open, with
no call of `close`; the same holds in every reachable state. -/
theorem main_onclose_leaves_operator_open :
    (lifecycleRun initialLifecycle
        [.onopen, .attached "session-1", .operator 0 .onopen,
         .operator 0 (.enableSettled (.ok ()))]).sessionId = some "session-1" ∧
    (lifecycleRun initialLifecycle
        [.onopen, .attached "session-1", .operator 0 .onopen,
         .operator 0 (.enableSettled (.ok ()))]).operators.map
      (fun c => (c.wsC2, c.fetchEnabled)) = [(true, some true)] ∧
    (lifecycleRun initialLifecycle
        [.onopen, .attached "session-1", .operator 0 .onopen,
         .operator 0 (.enableSettled (.ok ())), .onclose]).connectedCDP = false ∧
    (lifecycleRun initialLifecycle
        [.onopen, .attached "session-1", .operator 0 .onopen,
         .operator 0 (.enableSettled (.ok ())), .onclose]).timeouts =
      [(WS_RECONNECT_MS, .main)] ∧
    (lifecycleRun initialLifecycle
        [.onopen, .attached "session-1", .operator 0 .onopen,
         .operator 0 (.enableSettled (.ok ())), .onclose]).closed = [] ∧
    (lifecycleRun initialLifecycle
        [.onopen, .attached "session-1", .operator 0 .onopen,
         .operator 0 (.enableSettled (.ok ())), .onclose]).operators.map
      (fun c => (c.wsC2, c.closeCalls)) = [(true, 0)] ∧
    ∀ events : List LifecycleEvent,
      (lifecycleStep (lifecycleRun initialLifecycle events) .onclose).connectedCDP = false ∧
      (lifecycleStep (lifecycleRun initialLifecycle events) .onclose).timeouts =
        (lifecycleRun initialLifecycle events).timeouts ++ [(WS_RECONNECT_MS, .main)] ∧
      (lifecycleStep (lifecycleRun initialLifecycle events) .onclose).closed = [] ∧
      (lifecycleStep (lifecycleRun initialLifecycle events) .onclose).operators =
        (lifecycleRun initialLifecycle events).operators := by
  refine ⟨by rfl, by rfl, by rfl, by rfl, by rfl, by rfl, ?_⟩
  intro events
  obtain ⟨h1, h2⟩ := lifecycle_wsC2_undefined events initialLifecycle ⟨rfl, rfl⟩
  simp [lifecycleStep, h1, h2]

/-- C12. A fire-and-forget `sendCmdCDP` call (`ignoreRes` true) on an open
channel sends the command, resolves at once, and leaves the `onmessage` slot
and the pending timers as they were; hence after lines 221 and 222 of
`sendHttpReq` the event wait registered before `Fetch.continueRequest` is
still the installed handler, with its timer pending: messages that are not a
`Fetch.requestPaused` event settle nothing, and the next
`Fetch.requestPaused` event resolves the wait with its `params`. -/
theorem sendCmdCDP_ignoreRes_keeps_handler (ws : Chan) (method : String) (params : Json)
    (sessionId : Option String) (reqParams : ReqParams) (pre : List Msg) (paused : Json)
    (hopen : ws.isOpen = true)
    (hpre : ∀ m ∈ pre, ∀ p, m ≠ .event "Fetch.requestPaused" p) :
    (sendCmdCDP ws method params true sessionId).2 = .settled (.resolved .undefined) ∧
    (sendCmdCDP ws method params true sessionId).1.sent =
      ws.sent ++ [{ id := ws.cmdId, method := method, params := params,
                    sessionId := if truthy sessionId then sessionId else none }] ∧
    (sendCmdCDP ws method params true sessionId).1.onmessage = ws.onmessage ∧
    (sendCmdCDP ws method params true sessionId).1.timers = ws.timers ∧
    (continueRequest ws reqParams sessionId).2.1 = .pending ws.nextTimer ∧
    (continueRequest ws reqParams sessionId).2.2 = .settled (.resolved .undefined) ∧
    (continueRequest ws reqParams sessionId).1.onmessage =
      .awaitEvent "Fetch.requestPaused" ws.nextTimer ∧
    (continueRequest ws reqParams sessionId).1.timers =
      ws.timers ++ [{ handle := ws.nextTimer, ms := HTTP_RES_TIMEOUT,
                      reason := "Fetch.requestPaused" ++ " error: request timed out" }] ∧
    (deliverAll (continueRequest ws reqParams sessionId).1 pre).2 = [] ∧
    (deliverAll (continueRequest ws reqParams sessionId).1
        (pre ++ [.event "Fetch.requestPaused" paused])).2 =
      [(ws.nextTimer, .resolved (.params paused))] := by
  have hsend := sendCmdCDP_ignoreRes_open ws method params sessionId hopen
  have hwopen : (waitForEventCDP ws "Fetch.requestPaused" HTTP_RES_TIMEOUT).1.isOpen = true :=
    hopen
  have hcont := sendCmdCDP_ignoreRes_open
    (waitForEventCDP ws "Fetch.requestPaused" HTTP_RES_TIMEOUT).1 "Fetch.continueRequest"
    reqParams.toJson sessionId hwopen
  have hh : (continueRequest ws reqParams sessionId).1.onmessage =
      .awaitEvent "Fetch.requestPaused" ws.nextTimer := by
    simp only [continueRequest, hcont]
    rfl
  have hfront := deliverAll_awaitEvent_others "Fetch.requestPaused" ws.nextTimer pre _ hh hpre
  refine ⟨by rw [hsend], by rw [hsend], by rw [hsend], by rw [hsend], rfl, ?_, hh, ?_, ?_, ?_⟩
  · simp only [continueRequest, hcont]
  · simp only [continueRequest, hcont]
    rfl
  · rw [hfront]
  · rw [deliverAll_append, hfront]
    simp only [deliverAll, deliver_awaitEvent_match _ _ _ paused hh, List.nil_append,
      List.append_nil]
    rfl

/-- Witness for C12: on the open channel of a fresh program, a reply and an
event of another method arrive before the `Fetch.requestPaused` event. -/
theorem sendCmdCDP_ignoreRes_keeps_handler_witness :
    (deliverAll (continueRequest { initialChan with isOpen := true }
          { requestId := "interception-1", method := "GET", url := "http://example.local/health",
            headers := [("referer", "")], postData := none } (some "session-1")).1
        ([.result 5 ⟨none, []⟩, .event "Network.loadingFinished" .null] ++
          [.event "Fetch.requestPaused" (.obj [("requestId", .str "interception-2")])])).2 =
      [(1, .resolved (.params (.obj [("requestId", .str "interception-2")])))] :=
  (sendCmdCDP_ignoreRes_keeps_handler { initialChan with isOpen := true } "Fetch.failRequest"
    .null (some "session-1")
    { requestId := "interception-1", method := "GET", url := "http://example.local/health",
      headers := [("referer", "")], postData := none }
    [.result 5 ⟨none, []⟩, .event "Network.loadingFinished" .null]
    (.obj [("requestId", .str "interception-2")]) rfl
    (by
      intro m hm p
      simp only [List.mem_cons, List.mem_singleton, List.not_mem_nil, or_false] at hm
      rcases hm with rfl | rfl <;> simp)).2.2.2.2.2.2.2.2.2

end Tunnel
